import Mathlib

/-!
Verification of the Bitcoin fund-relay orchestrator.

This file gives a shallow embedding, in Lean 4, of the core of the
`bitcoin-relay` repository: the Fibonacci delay schedule and address
validation (`bitcoin_utils.py`), the secret vault (`encryption.py`),
the store operations (`database.py`) and the relay engine
(`relay_engine.py`).  Python strings are modelled as Lean `String`s
except in the vault, where byte strings (`bytes`) are modelled as
`List Nat` with every element below 256.  External libraries
(the `cryptography` AEAD/KDF primitives, `hashlib.sha256`, and the
`bit` signer) are modelled as explicit function parameters; everything
else is translated directly from the source.
-/

namespace BitcoinRelay

/-! ## Fibonacci delay schedule (`config.py`, `bitcoin_utils.py`) -/

/-- The `FIBONACCI_DELAYS` table from `config.py` line 38. -/
def FIBONACCI_DELAYS : List Nat := [1, 1, 2, 3, 5, 8, 13, 21, 34, 55, 89, 144]

/-- One iteration of the `while len(fib) < num_hops` loop body in
`calculate_fibonacci_delays` (`bitcoin_utils.py`): `fib.append(fib[-1] + fib[-2])`. -/
def fibStep (fib : List Nat) : List Nat :=
  fib ++ [fib.getD (fib.length - 1) 0 + fib.getD (fib.length - 2) 0]

/-- The `while len(fib) < num_hops` extension loop of
`calculate_fibonacci_delays` (`bitcoin_utils.py` lines 307-309). -/
def extendFib (fib : List Nat) (num_hops : Nat) : List Nat :=
  if _h : fib.length < num_hops then extendFib (fibStep fib) num_hops else fib
termination_by num_hops - fib.length
decreasing_by simp [fibStep]; omega

/-- Embedding of `calculate_fibonacci_delays` (`bitcoin_utils.py` lines 295-311). -/
def calculate_fibonacci_delays (num_hops : Nat) : List Nat :=
  if num_hops > FIBONACCI_DELAYS.length then
    (extendFib FIBONACCI_DELAYS num_hops).take num_hops
  else
    FIBONACCI_DELAYS.take num_hops

/-- The mathematical Fibonacci sequence starting `1, 1`, used as the
specification-side reference for the delay schedule. -/
def fib : Nat → Nat
  | 0 => 1
  | 1 => 1
  | n + 2 => fib n + fib (n + 1)

theorem fibStep_map (m : Nat) (hm : 2 ≤ m) :
    fibStep ((List.range m).map fib) = (List.range (m + 1)).map fib := by
  obtain ⟨k, rfl⟩ : ∃ k, m = k + 2 := ⟨m - 2, by omega⟩
  have hlen : ((List.range (k + 2)).map fib).length = k + 2 := by simp
  have h1 : ((List.range (k + 2)).map fib).getD (k + 2 - 1) 0 = fib (k + 1) := by
    have : k + 2 - 1 = k + 1 := by omega
    rw [this]
    rw [List.getD_eq_getElem _ _ (by simp), List.getElem_map, List.getElem_range]
  have h2 : ((List.range (k + 2)).map fib).getD (k + 2 - 2) 0 = fib k := by
    have : k + 2 - 2 = k := by omega
    rw [this]
    rw [List.getD_eq_getElem _ _ (by simp), List.getElem_map, List.getElem_range]
  unfold fibStep
  rw [hlen, h1, h2]
  conv_rhs => rw [List.range_succ]
  rw [List.map_append]
  simp only [List.map_cons, List.map_nil]
  have hf : fib (k + 2) = fib (k + 1) + fib k := by
    rw [show fib (k + 2) = fib k + fib (k + 1) from rfl]
    omega
  rw [hf]

theorem extendFib_map (k : Nat) :
    ∀ m n, 2 ≤ m → n ≤ m + k →
      extendFib ((List.range m).map fib) n = (List.range (max m n)).map fib := by
  induction k with
  | zero =>
    intro m n hm hn
    rw [extendFib]
    have hlen : ¬ ((List.range m).map fib).length < n := by simp; omega
    rw [dif_neg hlen]
    have : max m n = m := by omega
    rw [this]
  | succ k ih =>
    intro m n hm hn
    rw [extendFib]
    by_cases h : ((List.range m).map fib).length < n
    · rw [dif_pos h]
      simp only [List.length_map, List.length_range] at h
      rw [fibStep_map m hm]
      rw [ih (m + 1) n (by omega) (by omega)]
      have : max (m + 1) n = max m n := by omega
      rw [this]
    · rw [dif_neg h]
      simp only [List.length_map, List.length_range, not_lt] at h
      have : max m n = m := by omega
      rw [this]

theorem fib_table : FIBONACCI_DELAYS = (List.range 12).map fib := by decide

theorem calculate_fibonacci_delays_eq (n : Nat) :
    calculate_fibonacci_delays n = (List.range n).map fib := by
  unfold calculate_fibonacci_delays
  by_cases h : n > FIBONACCI_DELAYS.length
  · rw [if_pos h]
    have hlen : FIBONACCI_DELAYS.length = 12 := by decide
    rw [hlen] at h
    rw [fib_table, extendFib_map (n - 12) 12 n (by omega) (by omega)]
    have hmax : max 12 n = n := by omega
    rw [hmax]
    exact List.take_of_length_le (by simp)
  · rw [if_neg h]
    have hlen : FIBONACCI_DELAYS.length = 12 := by decide
    rw [hlen] at h
    rw [fib_table, ← List.map_take, List.take_range]
    have : min n 12 = n := by omega
    rw [this]

/-- C6: `calculate_fibonacci_delays(n)` returns exactly the first `n` terms
of the Fibonacci sequence starting `1, 1, 2, 3, 5, 8, ...`; the result has
length `n`; each term from index 2 on is the sum of the two preceding terms;
and requesting 15 hops yields 15 delays. -/
theorem c6_fibonacci_delays (n : Nat) :
    calculate_fibonacci_delays n = (List.range n).map fib ∧
    (calculate_fibonacci_delays n).length = n ∧
    (∀ i, 2 ≤ i → i < n →
      (calculate_fibonacci_delays n).getD i 0 =
        (calculate_fibonacci_delays n).getD (i - 1) 0 +
          (calculate_fibonacci_delays n).getD (i - 2) 0) ∧
    (calculate_fibonacci_delays 15).length = 15 := by
  have heq := calculate_fibonacci_delays_eq n
  refine ⟨heq, by rw [heq]; simp, ?_, ?_⟩
  · intro i h2 hlt
    obtain ⟨k, rfl⟩ : ∃ k, i = k + 2 := ⟨i - 2, by omega⟩
    have hget : ∀ j, j < n → (calculate_fibonacci_delays n).getD j 0 = fib j := by
      intro j hj
      rw [heq, List.getD_eq_getElem _ _ (by simp [hj]), List.getElem_map,
        List.getElem_range]
    rw [hget _ hlt, hget _ (by omega), hget _ (by omega)]
    show fib (k + 2) = fib (k + 2 - 1) + fib (k + 2 - 2)
    have e1 : k + 2 - 1 = k + 1 := by omega
    have e2 : k + 2 - 2 = k := by omega
    rw [e1, e2, fib]
    omega
  · rw [calculate_fibonacci_delays_eq 15]; simp

/-- Witness for C6 at `n = 15`, `i = 7`. -/
theorem c6_fibonacci_delays_witness :
    (calculate_fibonacci_delays 15).getD 7 0 =
      (calculate_fibonacci_delays 15).getD 6 0 +
        (calculate_fibonacci_delays 15).getD 5 0 ∧
    (calculate_fibonacci_delays 15).length = 15 :=
  ⟨(c6_fibonacci_delays 15).2.2.1 7 (by decide) (by decide),
   (c6_fibonacci_delays 15).2.2.2⟩

/-! ## Address validation (`bitcoin_utils.py`, `WalletManager.validate_address`) -/

/-- Embedding of `WalletManager.validate_address` (`bitcoin_utils.py`
lines 273-292).  `is_testnet` is the `WalletManager.is_testnet` flag. -/
def validate_address (is_testnet : Bool) (address : String) : Bool :=
  let validStart :=
    if is_testnet then
      address.startsWith "m" || address.startsWith "n" ||
        address.startsWith "2" || address.startsWith "tb1"
    else
      address.startsWith "1" || address.startsWith "3" || address.startsWith "bc1"
  if !validStart then
    false
  else if address.startsWith "bc1" || address.startsWith "tb1" then
    decide (42 ≤ address.length) && decide (address.length ≤ 62)
  else
    decide (26 ≤ address.length) && decide (address.length ≤ 35)

/-- Specification-side predicate, written from the spec's words: the address
starts with a prefix valid for the configured network (testnet: m, n, 2, tb1;
mainnet: 1, 3, bc1), and its length lies in [42, 62] when it starts with bc1
or tb1 (bech32) and in [26, 35] otherwise (legacy/P2SH). -/
def ValidAddressSpec (is_testnet : Bool) (address : String) : Prop :=
  (if is_testnet then
      address.startsWith "m" = true ∨ address.startsWith "n" = true ∨
        address.startsWith "2" = true ∨ address.startsWith "tb1" = true
    else
      address.startsWith "1" = true ∨ address.startsWith "3" = true ∨
        address.startsWith "bc1" = true) ∧
  (if address.startsWith "bc1" || address.startsWith "tb1" then
      42 ≤ address.length ∧ address.length ≤ 62
    else
      26 ≤ address.length ∧ address.length ≤ 35)

/-- C8: `validate_address(a)` returns true if and only if `a` has a valid
network prefix and its length lies in the bech32 window [42, 62] when it
starts with bc1/tb1 and in the legacy window [26, 35] otherwise. -/
theorem c8_validate_address (is_testnet : Bool) (address : String) :
    validate_address is_testnet address = true ↔
      ValidAddressSpec is_testnet address := by
  unfold validate_address ValidAddressSpec
  cases is_testnet <;>
    simp only [if_true, if_false, Bool.if_false_left, Bool.if_true_left] <;>
    by_cases hb : (address.startsWith "bc1" || address.startsWith "tb1") = true <;>
    simp [hb, Bool.or_eq_true, or_assoc, and_assoc, Bool.not_eq_true]

/-! ## Secret vault (`encryption.py`)

Byte strings (`bytes`) are modelled as `List Nat` with every element below
256; base64 text is modelled by the ASCII codes of its characters. -/

/-- SALT_LENGTH from `config.py` line 14. -/
def SALT_LENGTH : Nat := 16

/-- ASCII code of the base64 alphabet character at index `i` (the standard
alphabet used by Python's `base64.b64encode`). -/
def b64alphabet (i : Nat) : Nat :=
  if i < 26 then 65 + i
  else if i < 52 then 71 + i
  else if i < 62 then i - 4
  else if i = 62 then 43
  else 47

/-- Index of an ASCII code in the base64 alphabet; 64 when the character is
not a base64 alphabet character. -/
def b64charIndex (c : Nat) : Nat :=
  if 65 ≤ c ∧ c ≤ 90 then c - 65
  else if 97 ≤ c ∧ c ≤ 122 then c - 71
  else if 48 ≤ c ∧ c ≤ 57 then c + 4
  else if c = 43 then 62
  else if c = 47 then 63
  else 64

/-- Embedding of `base64.b64encode`: each 3-byte group becomes 4 alphabet
characters; a 2-byte or 1-byte tail is padded with `=` (ASCII 61). -/
def b64encode : List Nat → List Nat
  | [] => []
  | [a] => [b64alphabet (a / 4), b64alphabet (a % 4 * 16), 61, 61]
  | [a, b] => [b64alphabet (a / 4), b64alphabet (a % 4 * 16 + b / 16),
               b64alphabet (b % 16 * 4), 61]
  | a :: b :: c :: rest =>
      b64alphabet (a / 4) :: b64alphabet (a % 4 * 16 + b / 16) ::
        b64alphabet (b % 16 * 4 + c / 64) :: b64alphabet (c % 64) ::
        b64encode rest

/-- Embedding of `base64.b64decode`: decode 4-character groups, allowing
`=` padding only in the final group; `none` models the `binascii.Error`
raised on malformed input. -/
def b64decode? : List Nat → Option (List Nat)
  | [] => some []
  | c1 :: c2 :: c3 :: c4 :: rest =>
      if b64charIndex c1 < 64 ∧ b64charIndex c2 < 64 then
        if c4 = 61 then
          if rest = [] then
            if c3 = 61 then
              some [b64charIndex c1 * 4 + b64charIndex c2 / 16]
            else if b64charIndex c3 < 64 then
              some [b64charIndex c1 * 4 + b64charIndex c2 / 16,
                    b64charIndex c2 % 16 * 16 + b64charIndex c3 / 4]
            else none
          else none
        else
          if b64charIndex c3 < 64 ∧ b64charIndex c4 < 64 then
            (b64decode? rest).map (fun bs =>
              (b64charIndex c1 * 4 + b64charIndex c2 / 16) ::
                (b64charIndex c2 % 16 * 16 + b64charIndex c3 / 4) ::
                (b64charIndex c3 % 4 * 64 + b64charIndex c4) :: bs)
          else none
      else none
  | _ => none

theorem b64charIndex_alphabet : ∀ i, i < 64 → b64charIndex (b64alphabet i) = i := by
  decide

theorem b64alphabet_ne_pad : ∀ i, i < 64 → b64alphabet i ≠ 61 := by
  decide

theorem b64decode_encode_bounded (n : Nat) :
    ∀ bs : List Nat, bs.length ≤ n → (∀ x ∈ bs, x < 256) →
      b64decode? (b64encode bs) = some bs := by
  induction n with
  | zero =>
    intro bs hlen _
    have hnil : bs = [] := List.eq_nil_of_length_eq_zero (by omega)
    subst hnil; rfl
  | succ n ih =>
    intro bs hlen hb
    match bs with
    | [] => rfl
    | [a] =>
      have ha : a < 256 := hb a (by simp)
      have h1 : a / 4 < 64 := by omega
      have h2 : a % 4 * 16 < 64 := by omega
      show b64decode? [b64alphabet (a / 4), b64alphabet (a % 4 * 16), 61, 61]
        = some [a]
      simp only [b64decode?]
      rw [b64charIndex_alphabet _ h1, b64charIndex_alphabet _ h2]
      simp only [show b64charIndex 61 = 64 from rfl]
      simp [h1, h2]
      omega
    | [a, b] =>
      have ha : a < 256 := hb a (by simp)
      have hbb : b < 256 := hb b (by simp)
      have h1 : a / 4 < 64 := by omega
      have h2 : a % 4 * 16 + b / 16 < 64 := by omega
      have h3 : b % 16 * 4 < 64 := by omega
      show b64decode? [b64alphabet (a / 4), b64alphabet (a % 4 * 16 + b / 16),
          b64alphabet (b % 16 * 4), 61] = some [a, b]
      simp only [b64decode?]
      rw [b64charIndex_alphabet _ h1, b64charIndex_alphabet _ h2,
        b64charIndex_alphabet _ h3]
      simp [h1, h2, h3, b64alphabet_ne_pad _ h3]
      constructor
      · omega
      · omega
    | a :: b :: c :: rest =>
      have ha : a < 256 := hb a (by simp)
      have hbb : b < 256 := hb b (by simp)
      have hc : c < 256 := hb c (by simp)
      have hrest : ∀ x ∈ rest, x < 256 := fun x hx => hb x (by simp [hx])
      have hlen' : rest.length ≤ n := by
        simp only [List.length_cons] at hlen; omega
      have hrec := ih rest hlen' hrest
      have h1 : a / 4 < 64 := by omega
      have h2 : a % 4 * 16 + b / 16 < 64 := by omega
      have h3 : b % 16 * 4 + c / 64 < 64 := by omega
      have h4 : c % 64 < 64 := by omega
      show b64decode? (b64alphabet (a / 4) :: b64alphabet (a % 4 * 16 + b / 16) ::
          b64alphabet (b % 16 * 4 + c / 64) :: b64alphabet (c % 64) ::
          b64encode rest) = some (a :: b :: c :: rest)
      simp only [b64decode?]
      rw [b64charIndex_alphabet _ h1, b64charIndex_alphabet _ h2,
        b64charIndex_alphabet _ h3, b64charIndex_alphabet _ h4]
      have e1 : a / 4 * 4 + (a % 4 * 16 + b / 16) / 16 = a := by omega
      have e2 : (a % 4 * 16 + b / 16) % 16 * 16 + (b % 16 * 4 + c / 64) / 4 = b := by
        omega
      have e3 : (b % 16 * 4 + c / 64) % 4 * 64 + c % 64 = c := by omega
      simp [h1, h2, h3, h4, b64alphabet_ne_pad _ h4, hrec, e1, e2, e3]

theorem b64decode_encode (bs : List Nat) (hb : ∀ x ∈ bs, x < 256) :
    b64decode? (b64encode bs) = some bs :=
  b64decode_encode_bounded bs.length bs le_rfl hb

/-- Embedding of `KeyEncryption.encrypt` (`encryption.py` lines 48-78).
The PBKDF2 derivation (`KeyEncryption.derive_key`, backed by the external
`cryptography` library) and the AES-256-GCM cipher are passed as the
function parameters `derive_key` and `aesgcm_encrypt`; the random `salt`
and `nonce` drawn by `os.urandom` are passed explicitly.  Plaintext and
password are UTF-8 byte strings. -/
def KeyEncryption.encrypt
    (derive_key : List Nat → List Nat → List Nat)
    (aesgcm_encrypt : List Nat → List Nat → List Nat → List Nat)
    (salt nonce plaintext password : List Nat) : List Nat :=
  b64encode (salt ++ nonce ++
    aesgcm_encrypt (derive_key password salt) nonce plaintext)

/-- Embedding of `KeyEncryption.decrypt` (`encryption.py` lines 80-114):
base64-decode, split off the 16-byte salt and the 12-byte nonce, derive the
key and decrypt.  Any failure (of the base64 decode or of the authenticated
cipher `aesgcm_decrypt`) is the `EncryptionError` path, modelled as `none`. -/
def KeyEncryption.decrypt
    (derive_key : List Nat → List Nat → List Nat)
    (aesgcm_decrypt : List Nat → List Nat → List Nat → Option (List Nat))
    (encrypted_data password : List Nat) : Option (List Nat) :=
  match b64decode? encrypted_data with
  | none => none
  | some data =>
      let salt := data.take SALT_LENGTH
      let nonce := (data.drop SALT_LENGTH).take 12
      let ciphertext := data.drop (SALT_LENGTH + 12)
      aesgcm_decrypt (derive_key password salt) nonce ciphertext

/-- C7: for every plaintext and password, and every salt and nonce drawn
during encryption, `decrypt(encrypt(m, pw), pw)` returns `m`.  The external
AEAD cipher is assumed to invert its own encryption (its documented
behaviour); salt and nonce have the lengths `os.urandom(16)` and
`os.urandom(12)` guarantee, and all bytes are below 256 as in Python. -/
theorem c7_encrypt_decrypt_roundtrip
    (derive_key : List Nat → List Nat → List Nat)
    (aesgcm_encrypt : List Nat → List Nat → List Nat → List Nat)
    (aesgcm_decrypt : List Nat → List Nat → List Nat → Option (List Nat))
    (hcipher : ∀ key nonce m,
      aesgcm_decrypt key nonce (aesgcm_encrypt key nonce m) = some m)
    (salt nonce plaintext password : List Nat)
    (hsalt : salt.length = SALT_LENGTH)
    (hnonce : nonce.length = 12)
    (hsalt_b : ∀ x ∈ salt, x < 256)
    (hnonce_b : ∀ x ∈ nonce, x < 256)
    (hct_b : ∀ x ∈ aesgcm_encrypt (derive_key password salt) nonce plaintext,
      x < 256) :
    KeyEncryption.decrypt derive_key aesgcm_decrypt
      (KeyEncryption.encrypt derive_key aesgcm_encrypt salt nonce plaintext
        password) password = some plaintext := by
  unfold KeyEncryption.encrypt KeyEncryption.decrypt
  have hall : ∀ x ∈ salt ++ nonce ++
      aesgcm_encrypt (derive_key password salt) nonce plaintext, x < 256 := by
    intro x hx
    rcases List.mem_append.mp hx with hx' | hx'
    · rcases List.mem_append.mp hx' with hx'' | hx''
      · exact hsalt_b x hx''
      · exact hnonce_b x hx''
    · exact hct_b x hx'
  rw [b64decode_encode _ hall]
  have htake : (salt ++ nonce ++
      aesgcm_encrypt (derive_key password salt) nonce plaintext).take
        SALT_LENGTH = salt := by
    rw [List.append_assoc, ← hsalt, List.take_left]
  have hdrop : (salt ++ nonce ++
      aesgcm_encrypt (derive_key password salt) nonce plaintext).drop
        SALT_LENGTH = nonce ++
          aesgcm_encrypt (derive_key password salt) nonce plaintext := by
    rw [List.append_assoc, ← hsalt, List.drop_left]
  have htake2 : ((salt ++ nonce ++
      aesgcm_encrypt (derive_key password salt) nonce plaintext).drop
        SALT_LENGTH).take 12 = nonce := by
    rw [hdrop, ← hnonce, List.take_left]
  have hdrop2 : (salt ++ nonce ++
      aesgcm_encrypt (derive_key password salt) nonce plaintext).drop
        (SALT_LENGTH + 12) = aesgcm_encrypt (derive_key password salt) nonce
          plaintext := by
    have hl : (salt ++ nonce).length = SALT_LENGTH + 12 := by
      rw [List.length_append, hsalt, hnonce]
    rw [← hl, List.drop_left]
  simp only [htake, htake2, hdrop2]
  exact hcipher _ _ _

/-- Witness for C7 with a concrete trivial cipher and concrete salt, nonce,
plaintext and password. -/
theorem c7_encrypt_decrypt_roundtrip_witness :
    KeyEncryption.decrypt (fun _ _ => []) (fun _ _ ct => some ct)
      (KeyEncryption.encrypt (fun _ _ => []) (fun _ _ m => m)
        (List.replicate 16 0) (List.replicate 12 0) [87, 73, 70] [])
      [] = some [87, 73, 70] :=
  c7_encrypt_decrypt_roundtrip (fun _ _ => []) (fun _ _ m => m)
    (fun _ _ ct => some ct) (fun _ _ _ => rfl)
    (List.replicate 16 0) (List.replicate 12 0) [87, 73, 70] []
    (by decide) (by decide) (by decide) (by decide) (by decide)

/-- Embedding of `verify_password_hash` (`encryption.py` lines 146-161).
The external `derive_key` (PBKDF2) and `sha256` (`hashlib.sha256(...)
.digest()`) primitives are parameters.  The Python `try`/`except` returning
`False` on any error is modelled by the `none` branch of the base64 decode;
the function is total by construction. -/
def verify_password_hash
    (derive_key : List Nat → List Nat → List Nat)
    (sha256 : List Nat → List Nat)
    (password stored_hash : List Nat) : Bool :=
  match b64decode? stored_hash with
  | none => false
  | some data =>
      let salt := data.take SALT_LENGTH
      let stored_hash_value := data.drop SALT_LENGTH
      let key := derive_key password salt
      let computed_hash := sha256 key
      computed_hash == stored_hash_value

/-- C10: `verify_password_hash` is total (it is a Lean function into `Bool`
by construction, mirroring the `try`/`except` that swallows every error)
and returns `False` on any malformed stored hash: both when the stored hash
is not valid base64 and when it decodes to fewer bytes than one salt
length.  The external `sha256` digest is 32 bytes long. -/
theorem c10_verify_password_hash_malformed
    (derive_key : List Nat → List Nat → List Nat)
    (sha256 : List Nat → List Nat)
    (hsha : ∀ x, (sha256 x).length = 32)
    (password stored_hash : List Nat) :
    (b64decode? stored_hash = none →
      verify_password_hash derive_key sha256 password stored_hash = false) ∧
    (∀ data, b64decode? stored_hash = some data → data.length < SALT_LENGTH →
      verify_password_hash derive_key sha256 password stored_hash = false) := by
  constructor
  · intro hnone
    unfold verify_password_hash
    rw [hnone]
  · intro data hdata hshort
    unfold verify_password_hash
    rw [hdata]
    have hdropnil : data.drop SALT_LENGTH = [] :=
      List.drop_eq_nil_of_le (by omega)
    simp only [hdropnil]
    apply beq_eq_false_iff_ne.mpr
    intro hcontra
    have := hsha (derive_key password (data.take SALT_LENGTH))
    rw [hcontra] at this
    simp at this

/-- Witness for C10: a one-character stored hash is not valid base64 and
verification returns `False`. -/
theorem c10_verify_password_hash_malformed_witness :
    verify_password_hash (fun _ _ => []) (fun _ => List.replicate 32 0)
      [] [33] = false :=
  (c10_verify_password_hash_malformed (fun _ _ => [])
    (fun _ => List.replicate 32 0) (fun _ => by simp) [] [33]).1 rfl

/-! ## Store data model (`database.py`) -/

/-- One row of the `relay_chains` table (`database.py` lines 50-72).
Timestamps are modelled as natural numbers. -/
structure ChainRow where
  id : Nat
  name : String
  network : String
  status : String
  intake_address : String
  intake_privkey_encrypted : String
  final_address : String
  final_is_generated : Bool
  final_privkey_encrypted : Option String
  total_hops : Nat
  current_hop : Nat
  amount_received_sats : Option Int
  amount_sent_sats : Option Int
  total_fees_sats : Option Int
  created_at : Nat
  started_at : Option Nat
  completed_at : Option Nat
  error_message : Option String
deriving DecidableEq, Inhabited

/-- One row of the `relay_hops` table (`database.py` lines 75-97). -/
structure HopRow where
  id : Nat
  chain_id : Nat
  hop_number : Nat
  address : String
  privkey_encrypted : String
  delay_blocks : Nat
  status : String
  incoming_txid : Option String
  incoming_amount_sats : Option Int
  incoming_confirmed_at_block : Option Nat
  outgoing_txid : Option String
  outgoing_amount_sats : Option Int
  outgoing_fee_sats : Option Int
  relay_at_block : Option Nat
  created_at : Nat
  funded_at : Option Nat
  relayed_at : Option Nat
deriving DecidableEq, Inhabited

/-- One row of the `transaction_log` table (`database.py` lines 100-113). -/
structure LogEntry where
  chain_id : Nat
  hop_id : Option Nat
  event_type : String
  txid : Option String
  amount_sats : Option Int
  fee_sats : Option Int
  block_height : Option Nat
  details : Option String
deriving DecidableEq, Inhabited

/-- The persistent store: the four mutable tables of `database.py`
(the `settings` table is not touched by the engine). -/
structure Store where
  chains : List ChainRow
  hops : List HopRow
  log : List LogEntry
  blockTracker : List (String × Nat)
deriving DecidableEq, Inhabited

/-- One Store write operation, as issued by the engine: each constructor is
one of the mutating functions of `database.py` (each a single SQL
transaction). -/
inductive StoreWrite where
  | updateChainAmounts (chain_id : Nat)
      (amount_received_sats amount_sent_sats total_fees_sats : Option Int)
      (current_hop : Option Nat)
  | updateHopFunded (hop_id : Nat) (incoming_txid : String)
      (incoming_amount_sats : Int) (confirmed_at_block relay_at_block : Nat)
  | updateHopRelayed (hop_id : Nat) (outgoing_txid : String)
      (outgoing_amount_sats outgoing_fee_sats : Int)
  | updateChainStatus (chain_id : Nat) (status : String)
      (error_message : Option String)
  | updateHopStatus (hop_id : Nat) (status : String)
  | logTransaction (entry : LogEntry)
  | updateBlockHeight (network : String) (height : Nat)
deriving DecidableEq

/-- Effect of one Store write on one `relay_chains` row: the SQL
`UPDATE relay_chains ... WHERE id = ?` statements of `database.py`
(`update_chain_amounts` lines 266-297, `update_chain_status` lines
242-263).  `now` models `CURRENT_TIMESTAMP`. -/
def chainRowUpd (now : Nat) (w : StoreWrite) (r : ChainRow) : ChainRow :=
  match w with
  | .updateChainAmounts cid a b c d =>
      if r.id = cid then
        { r with
          amount_received_sats :=
            match a with | some v => some v | none => r.amount_received_sats,
          amount_sent_sats :=
            match b with | some v => some v | none => r.amount_sent_sats,
          total_fees_sats :=
            match c with | some v => some v | none => r.total_fees_sats,
          current_hop := match d with | some v => v | none => r.current_hop }
      else r
  | .updateChainStatus cid st err =>
      if r.id = cid then
        { r with
          status := st,
          started_at := if st = "active" then some now else r.started_at,
          completed_at :=
            if st = "completed" ∨ st = "failed" ∨ st = "cancelled" then some now
            else r.completed_at,
          error_message :=
            match err with
            | some e => if e ≠ "" then some e else r.error_message
            | none => r.error_message }
      else r
  | _ => r

/-- Effect of one Store write on one `relay_hops` row: the SQL
`UPDATE relay_hops ... WHERE id = ?` statements of `database.py`
(`update_hop_funded` lines 358-377, `update_hop_relayed` lines 380-397,
`update_hop_status` lines 400-404). -/
def hopRowUpd (now : Nat) (w : StoreWrite) (h : HopRow) : HopRow :=
  match w with
  | .updateHopFunded hid txid amt cb rb =>
      if h.id = hid then
        { h with
          status := "pending_relay"
          incoming_txid := some txid
          incoming_amount_sats := some amt
          incoming_confirmed_at_block := some cb
          relay_at_block := some rb
          funded_at := some now }
      else h
  | .updateHopRelayed hid txid amt fee =>
      if h.id = hid then
        { h with
          status := "relayed"
          outgoing_txid := some txid
          outgoing_amount_sats := some amt
          outgoing_fee_sats := some fee
          relayed_at := some now }
      else h
  | .updateHopStatus hid st =>
      if h.id = hid then { h with status := st } else h
  | _ => h

/-- Effect of one Store write on the `block_tracker` table: the upsert of
`update_block_height` (`database.py` lines 455-464). -/
def trackerUpd (w : StoreWrite) (t : List (String × Nat)) : List (String × Nat) :=
  match w with
  | .updateBlockHeight net h =>
      if t.any (fun p => p.1 == net) then
        t.map (fun p => if p.1 = net then (net, h) else p)
      else t ++ [(net, h)]
  | _ => t

/-- Log entries appended by one Store write (`log_transaction`,
`database.py` lines 411-429). -/
def logAdd (w : StoreWrite) : List LogEntry :=
  match w with
  | .logTransaction e => [e]
  | _ => []

/-- Apply one Store write to the store. -/
def applyWrite (now : Nat) (s : Store) (w : StoreWrite) : Store :=
  { chains := s.chains.map (chainRowUpd now w),
    hops := s.hops.map (hopRowUpd now w),
    log := s.log ++ logAdd w,
    blockTracker := trackerUpd w s.blockTracker }

/-- Apply a list of Store writes in order. -/
def applyWrites (now : Nat) (s : Store) (ws : List StoreWrite) : Store :=
  ws.foldl (applyWrite now) s

/-- Embedding of `update_chain_amounts` (`database.py` lines 266-297) as
the write list it issues: the UPDATE statement runs only when at least one
of the four optional arguments is supplied (the `if updates:` guard). -/
def update_chain_amounts (chain_id : Nat)
    (amount_received_sats amount_sent_sats total_fees_sats : Option Int)
    (current_hop : Option Nat) : List StoreWrite :=
  if amount_received_sats.isSome || amount_sent_sats.isSome ||
      total_fees_sats.isSome || current_hop.isSome then
    [.updateChainAmounts chain_id amount_received_sats amount_sent_sats
      total_fees_sats current_hop]
  else []

/-- Insertion step of the sort used to model SQL `ORDER BY`. -/
def insertBy {α : Type} (le : α → α → Bool) (a : α) : List α → List α
  | [] => [a]
  | b :: t => if le a b then a :: b :: t else b :: insertBy le a t

/-- Insertion sort used to model SQL `ORDER BY`. -/
def sortBy {α : Type} (le : α → α → Bool) : List α → List α
  | [] => []
  | a :: t => insertBy le a (sortBy le t)

/-- Embedding of `get_relay_hops` (`database.py` lines 322-329): the hops
of a chain ordered by `hop_number` ascending. -/
def get_relay_hops (s : Store) (chain_id : Nat) : List HopRow :=
  sortBy (fun a b => decide (a.hop_number ≤ b.hop_number))
    (s.hops.filter (fun h => h.chain_id == chain_id))

/-- Embedding of `get_all_relay_chains` with a network filter
(`database.py` lines 217-228): the chains of a network ordered by
`created_at` descending. -/
def get_all_relay_chains (s : Store) (network : String) : List ChainRow :=
  sortBy (fun a b => decide (b.created_at ≤ a.created_at))
    (s.chains.filter (fun c => c.network == network))

/-! ## Relay engine (`relay_engine.py`) -/

/-- One sweep transaction as built and broadcast by `_relay_from_location`:
a single-input single-output payment of `amount` to `destination`, signed
by the key decrypted from `source_key_enc`, with absolute fee `fee`. -/
structure Sweep where
  chain_id : Nat
  source_key_enc : String
  destination : String
  amount : Int
  fee : Int
deriving DecidableEq

/-- The chain-client, signer and fee-oracle responses the engine observes
during one cycle (`BitcoinAPI`, the `bit` signer and the fee oracle are
external services).  `balance a` is `get_address_balance(a)` as
`(confirmed, unconfirmed)`; `keyBalance k` is
`int(key.get_balance('satoshi'))` for the key obtained by decrypting the
encrypted WIF `k` with the engine password; `feeMedium` is
`fees['medium'].estimated_fee_sats`; `txidOf` is the txid returned by
`broadcast_transaction` for a sweep; `tip` is `get_block_height()`; `now`
models `CURRENT_TIMESTAMP`. -/
structure Env where
  tip : Nat
  now : Nat
  balance : String → Int × Int
  feeMedium : Int
  keyBalance : String → Int
  txidOf : Sweep → String

/-- Where `_find_funds_location` found the funds: the intake address or the
0-based hop index `i` (encoded as the string `'hop_{i+1}'` in the source). -/
inductive Loc where
  | intake
  | hop (i : Nat)
deriving DecidableEq

/-- Display name of a location, as used in `processing_status` messages. -/
def locName : Loc → String
  | .intake => "intake"
  | .hop i => "hop_" ++ toString (i + 1)

/-- Result of one processing step: Store writes issued (in order),
transactions broadcast, and `processing_status` messages set (chain id
paired with the message, in assignment order). -/
structure CycleResult where
  writes : List StoreWrite
  broadcasts : List Sweep
  statusMsgs : List (Nat × String)
deriving DecidableEq

/-- The hop-scanning loop of `_find_funds_location` (`relay_engine.py`
lines 176-180), carrying the running 0-based index. -/
def findHopFunds (env : Env) (i : Nat) : List HopRow → Option (Loc × Int)
  | [] => none
  | h :: t =>
      let b := (env.balance h.address).1
      if b > 0 then some (.hop i, b) else findHopFunds env (i + 1) t

/-- Embedding of `_find_funds_location` (`relay_engine.py` lines 166-182):
check the intake address first, then each hop in order; return the first
location whose confirmed balance is positive. -/
def find_funds_location (env : Env) (chain : ChainRow) (hops : List HopRow) :
    Option (Loc × Int) :=
  let ib := (env.balance chain.intake_address).1
  if ib > 0 then some (.intake, ib) else findHopFunds env 0 hops

/-- The `for hop in reversed(hops): if hop.get('outgoing_amount_sats'):`
fallback of `_complete_chain` (`relay_engine.py` lines 314-318), applied to
an already reversed list: the first truthy (non-`None`, non-zero) outgoing
amount. -/
def firstTruthyAmount : List HopRow → Option Int
  | [] => none
  | h :: t =>
      match h.outgoing_amount_sats with
      | some v => if v ≠ 0 then some v else firstTruthyAmount t
      | none => firstTruthyAmount t

/-- Embedding of `_complete_chain` (`relay_engine.py` lines 302-348). -/
def complete_chain (env : Env) (chain : ChainRow) (hops : List HopRow) :
    CycleResult :=
  let total_fees := (hops.map (fun h => h.outgoing_fee_sats.getD 0)).sum
  let fb := env.balance chain.final_address
  let observed := fb.1 + fb.2
  let final_amount :=
    if observed = 0 then (firstTruthyAmount hops.reverse).getD 0 else observed
  { writes :=
      update_chain_amounts chain.id none (some final_amount) (some total_fees)
        none ++
      [.updateChainStatus chain.id "completed" none] ++
      ((hops.filter (fun h => !(h.status == "relayed"))).map
        (fun h => .updateHopStatus h.id "relayed")) ++
      [.logTransaction
        { chain_id := chain.id
          hop_id := none
          event_type := "chain_completed"
          txid := none
          amount_sats := some final_amount
          fee_sats := some total_fees
          block_height := none
          details := some ("Successfully relayed to " ++
            chain.final_address) }],
    broadcasts := [],
    statusMsgs := [(chain.id, "COMPLETED")] }

/-- Embedding of `_relay_from_location` (`relay_engine.py` lines 184-300).
Decryption of the source key and the signer's balance query are folded into
`env.keyBalance`; the broadcast returns `env.txidOf sweep`.  The `none`
branch of the destination resolution models the `IndexError` caught by the
surrounding `except`, which is unreachable from `_process_chain`. -/
def relay_from_location (env : Env) (chain : ChainRow) (hops : List HopRow)
    (location : Loc) (_balance : Int) (current_block : Nat) : CycleResult :=
  let fee_sats := max env.feeMedium 200
  let info : Option (String × String × Option Nat × String) :=
    match location with
    | .intake =>
        match hops with
        | [] => none
        | h0 :: _ =>
            some (chain.intake_privkey_encrypted, h0.address, some 0,
              "Intake -> Hop 1")
    | .hop i =>
        match hops[i]? with
        | none => none
        | some hi =>
            if i < hops.length - 1 then
              some (hi.privkey_encrypted, (hops.getD (i + 1) default).address,
                some (i + 1),
                "Hop " ++ toString (i + 1) ++ " -> Hop " ++ toString (i + 2))
            else
              some (hi.privkey_encrypted, chain.final_address, none,
                "Hop " ++ toString (i + 1) ++ " -> Final")
  match info with
  | none =>
      { writes := [.logTransaction
          { chain_id := chain.id
            hop_id := none
            event_type := "relay_error"
            txid := none
            amount_sats := none
            fee_sats := none
            block_height := none
            details := some "list index out of range" }]
        broadcasts := []
        statusMsgs := [(chain.id, "Relay failed: list index out of range")] }
  | some (source_key_enc, destination, dest_hop_index, desc) =>
      let actual_balance := env.keyBalance source_key_enc
      if actual_balance ≤ fee_sats then
        { writes := [], broadcasts := [],
          statusMsgs := [(chain.id, "Relaying: " ++ desc),
            (chain.id, "Insufficient balance: " ++ toString actual_balance ++
              " sats")] }
      else
        let amount_to_send := actual_balance - fee_sats
        let sweep : Sweep :=
          { chain_id := chain.id
            source_key_enc := source_key_enc
            destination := destination
            amount := amount_to_send
            fee := fee_sats }
        let txid := env.txidOf sweep
        let dbWrites :=
          match location with
          | .intake =>
              update_chain_amounts chain.id (some actual_balance) none none
                none ++
              [.updateHopFunded (hops.headD default).id txid amount_to_send
                current_block current_block]
          | .hop i =>
              [.updateHopRelayed (hops.getD i default).id txid amount_to_send
                fee_sats] ++
              (match dest_hop_index with
               | some j =>
                  [.updateHopFunded (hops.getD j default).id txid
                    amount_to_send current_block current_block]
               | none => []) ++
              update_chain_amounts chain.id none none none (some (i + 1))
        let logW : List StoreWrite :=
          [.logTransaction
            { chain_id := chain.id
              hop_id := none
              event_type := "relay_sent"
              txid := some txid
              amount_sats := some amount_to_send
              fee_sats := some fee_sats
              block_height := some current_block
              details := some desc }]
        let completion :=
          match dest_hop_index with
          | none => complete_chain env chain hops
          | some _ => { writes := [], broadcasts := [], statusMsgs := [] }
        { writes := dbWrites ++ logW ++ completion.writes,
          broadcasts := [sweep] ++ completion.broadcasts,
          statusMsgs := [(chain.id, "Relaying: " ++ desc),
            (chain.id, "Sent: " ++ desc ++ " (" ++ toString amount_to_send ++
              " sats)")] ++ completion.statusMsgs }

/-- Embedding of `_process_chain` (`relay_engine.py` lines 132-164). -/
def process_chain (env : Env) (s : Store) (chain : ChainRow)
    (current_block : Nat) : CycleResult :=
  let hops := get_relay_hops s chain.id
  if hops.isEmpty then
    { writes := [], broadcasts := [], statusMsgs := [] }
  else
    let checking := [(chain.id, "Checking...")]
    let intake_balance := env.balance chain.intake_address
    match find_funds_location env chain hops with
    | some (location, balance) =>
        let r := relay_from_location env chain hops location balance
          current_block
        { writes := r.writes, broadcasts := r.broadcasts,
          statusMsgs := checking ++
            [(chain.id, "Funds at " ++ locName location ++ ": " ++
              toString balance ++ " sats")] ++ r.statusMsgs }
    | none =>
        let final_balance := env.balance chain.final_address
        if final_balance.1 > 0 ∨ final_balance.2 > 0 then
          let r := complete_chain env chain hops
          { writes := r.writes, broadcasts := r.broadcasts,
            statusMsgs := checking ++ r.statusMsgs }
        else if intake_balance.1 = 0 ∧ intake_balance.2 = 0 then
          { writes := [], broadcasts := [],
            statusMsgs := checking ++
              [(chain.id, "Waiting for funds at intake")] }
        else
          { writes := [], broadcasts := [],
            statusMsgs := checking ++ [(chain.id, "Funds in transit")] }

/-- Embedding of `_process_cycle` (`relay_engine.py` lines 101-130) for an
engine on `network`, with the block-height read succeeding with `env.tip`.
Per-chain results are collected in order; the tip marker is committed last. -/
def process_cycle (network : String) (env : Env) (s : Store) : CycleResult :=
  let current_block := env.tip
  let chains := get_all_relay_chains s network
  let active_chains := chains.filter (fun c => c.status == "active")
  if active_chains.isEmpty then
    { writes := [.updateBlockHeight network current_block], broadcasts := [],
      statusMsgs := [] }
  else
    let results := active_chains.map (fun c => process_chain env s c
      current_block)
    { writes := (results.map (fun r => r.writes)).flatten ++
        [.updateBlockHeight network current_block],
      broadcasts := (results.map (fun r => r.broadcasts)).flatten,
      statusMsgs := (results.map (fun r => r.statusMsgs)).flatten }

/-- Wellformedness of the store: primary keys are unique (SQLite
`INTEGER PRIMARY KEY AUTOINCREMENT`). -/
def WF (s : Store) : Prop :=
  (s.chains.map (fun c => c.id)).Nodup ∧ (s.hops.map (fun h => h.id)).Nodup

/-! ## Permutation facts about the `ORDER BY` model -/

theorem insertBy_perm {α : Type} (le : α → α → Bool) (a : α) (l : List α) :
    (insertBy le a l).Perm (a :: l) := by
  induction l with
  | nil => exact List.Perm.refl _
  | cons b t ih =>
    simp only [insertBy]
    by_cases h : le a b = true
    · rw [if_pos h]
    · rw [if_neg h]
      exact (ih.cons b).trans (List.Perm.swap a b t)

theorem sortBy_perm {α : Type} (le : α → α → Bool) (l : List α) :
    (sortBy le l).Perm l := by
  induction l with
  | nil => exact List.Perm.refl _
  | cons a t ih => exact (insertBy_perm le a (sortBy le t)).trans (ih.cons a)

theorem mem_sortBy {α : Type} (le : α → α → Bool) (l : List α) (x : α) :
    x ∈ sortBy le l ↔ x ∈ l :=
  (sortBy_perm le l).mem_iff

/-- Rows returned by `get_relay_hops` belong to the store and to the chain. -/
theorem mem_get_relay_hops (s : Store) (cid : Nat) (h : HopRow)
    (hmem : h ∈ get_relay_hops s cid) : h ∈ s.hops ∧ h.chain_id = cid := by
  rw [get_relay_hops, mem_sortBy, List.mem_filter] at hmem
  exact ⟨hmem.1, by simpa using hmem.2⟩

/-- Rows returned by `get_all_relay_chains` belong to the store and to the
network. -/
theorem mem_get_all_relay_chains (s : Store) (net : String) (c : ChainRow)
    (hmem : c ∈ get_all_relay_chains s net) : c ∈ s.chains ∧ c.network = net := by
  rw [get_all_relay_chains, mem_sortBy, List.mem_filter] at hmem
  exact ⟨hmem.1, by simpa using hmem.2⟩

/-! ## Locating the funds: code vs. specification -/

/-- Specification-side ordered address list
`A = [intake, hop[0].addr, ..., hop[n-1].addr]` (ReconcileAndAdvance,
step 1 of the spec). -/
def addrList (chain : ChainRow) (hops : List HopRow) : List String :=
  chain.intake_address :: hops.map (fun h => h.address)

/-- Specification-side encrypted-key list `K`, aligned with `addrList`. -/
def keyList (chain : ChainRow) (hops : List HopRow) : List String :=
  chain.intake_privkey_encrypted :: hops.map (fun h => h.privkey_encrypted)

/-- Specification-side destination list
`D = [hop[0].addr, ..., hop[n-1].addr, final]`, aligned with `addrList`:
the successor destination of address `i` is `D[i]`. -/
def destList (chain : ChainRow) (hops : List HopRow) : List String :=
  hops.map (fun h => h.address) ++ [chain.final_address]

/-- Specification-side lowest index `i*` of the ordered address list whose
confirmed balance is positive. -/
def lowestFundedIndex (env : Env) (chain : ChainRow) (hops : List HopRow) :
    Option Nat :=
  (addrList chain hops).findIdx? (fun a => decide ((env.balance a).1 > 0))

/-- The location the engine reports for overall index `i` of the address
list: index 0 is the intake, index `j + 1` is hop `j`. -/
def locOfIdx : Nat → Loc
  | 0 => .intake
  | j + 1 => .hop j

theorem findHopFunds_spec (env : Env) (hops : List HopRow) : ∀ (k : Nat),
    findHopFunds env k hops =
      ((hops.map (fun h => h.address)).findIdx?
          (fun a => decide ((env.balance a).1 > 0)) 0).map
        (fun j => (Loc.hop (k + j),
          (env.balance ((hops.map (fun h => h.address)).getD j "")).1)) := by
  induction hops with
  | nil => intro k; rfl
  | cons h t ih =>
    intro k
    simp only [findHopFunds, List.map_cons, List.findIdx?_cons]
    by_cases hp : (env.balance h.address).1 > 0
    · simp [hp]
    · rw [if_neg hp, ih (k + 1)]
      rw [if_neg (by simpa using hp)]
      rw [List.findIdx?_succ]
      cases hfi : (t.map (fun h => h.address)).findIdx?
          (fun a => decide ((env.balance a).1 > 0)) 0 with
      | none => rfl
      | some j =>
        simp only [Option.map_some', List.getD_cons_succ]
        have : k + 1 + j = k + (j + 1) := by omega
        rw [this]

theorem find_funds_location_spec (env : Env) (chain : ChainRow)
    (hops : List HopRow) :
    find_funds_location env chain hops =
      (lowestFundedIndex env chain hops).map
        (fun i => (locOfIdx i,
          (env.balance ((addrList chain hops).getD i "")).1)) := by
  unfold find_funds_location lowestFundedIndex addrList
  simp only [List.findIdx?_cons]
  by_cases hp : (env.balance chain.intake_address).1 > 0
  · simp [hp, locOfIdx]
  · rw [if_neg hp, if_neg (by simpa using hp)]
    rw [findHopFunds_spec env hops 0, List.findIdx?_succ]
    cases hfi : (hops.map (fun h => h.address)).findIdx?
        (fun a => decide ((env.balance a).1 > 0)) 0 with
    | none => rfl
    | some j => simp [locOfIdx]

/-- A found index is within the address list. -/
theorem lowestFundedIndex_lt (env : Env) (chain : ChainRow)
    (hops : List HopRow) (i : Nat)
    (h : lowestFundedIndex env chain hops = some i) :
    i < hops.length + 1 := by
  unfold lowestFundedIndex at h
  have := List.findIdx?_eq_some_iff_findIdx_eq.mp h
  simpa [addrList] using this.1

/-! ## Sweep-step analysis -/

@[simp] theorem complete_chain_broadcasts (env : Env) (chain : ChainRow)
    (hops : List HopRow) : (complete_chain env chain hops).broadcasts = [] :=
  rfl

theorem isEmpty_eq_false_of_ne_nil {α : Type} {l : List α} (h : l ≠ []) :
    l.isEmpty = false := by
  cases l with
  | nil => exact absurd rfl h
  | cons a t => rfl

theorem map_getD_str (f : HopRow → String) (l : List HopRow) (j : Nat)
    (hj : j < l.length) : (l.map f).getD j "" = f (l.getD j default) := by
  rw [List.getD_eq_getElem _ _ (by simpa using hj), List.getD_eq_getElem _ _ hj,
    List.getElem_map]

theorem process_chain_eq_found (env : Env) (s : Store) (chain : ChainRow)
    (blk : Nat) (loc : Loc) (bal : Int)
    (hne : (get_relay_hops s chain.id).isEmpty = false)
    (hfind : find_funds_location env chain (get_relay_hops s chain.id) =
      some (loc, bal)) :
    process_chain env s chain blk =
      { writes := (relay_from_location env chain (get_relay_hops s chain.id)
          loc bal blk).writes
        broadcasts := (relay_from_location env chain
          (get_relay_hops s chain.id) loc bal blk).broadcasts
        statusMsgs := (chain.id, "Checking...") ::
          (chain.id, "Funds at " ++ locName loc ++ ": " ++ toString bal ++
            " sats") ::
          (relay_from_location env chain (get_relay_hops s chain.id) loc bal
            blk).statusMsgs } := by
  simp only [process_chain, hne, hfind]
  rfl

/-- Central analysis of the sweep step of `ReconcileAndAdvance`: when the
lowest funded index of a chain's address list is `i`, the engine either
skips the sweep on an insufficient live balance (no writes, no broadcast,
an insufficient-balance status message), or broadcasts the single sweep
paying `balance - fee` from `K[i]` to `D[i]`; when the destination is an
intermediate hop (index `i` of the hop list), the destination hop is
recorded funded at `relay_at_block = blk`. -/
theorem process_chain_sweep_spec (env : Env) (s : Store) (chain : ChainRow)
    (blk : Nat) (i : Nat)
    (hne : get_relay_hops s chain.id ≠ [])
    (hfi : lowestFundedIndex env chain (get_relay_hops s chain.id) = some i) :
    ((env.keyBalance ((keyList chain (get_relay_hops s chain.id)).getD i "") ≤
        max env.feeMedium 200) →
      (process_chain env s chain blk).writes = [] ∧
      (process_chain env s chain blk).broadcasts = [] ∧
      (chain.id, "Insufficient balance: " ++
          toString (env.keyBalance
            ((keyList chain (get_relay_hops s chain.id)).getD i "")) ++
          " sats") ∈ (process_chain env s chain blk).statusMsgs) ∧
    ((max env.feeMedium 200 <
        env.keyBalance ((keyList chain (get_relay_hops s chain.id)).getD i "")) →
      (process_chain env s chain blk).broadcasts =
        [{ chain_id := chain.id
           source_key_enc := (keyList chain (get_relay_hops s chain.id)).getD i ""
           destination := (destList chain (get_relay_hops s chain.id)).getD i ""
           amount := env.keyBalance
             ((keyList chain (get_relay_hops s chain.id)).getD i "") -
             max env.feeMedium 200
           fee := max env.feeMedium 200 }] ∧
      (i < (get_relay_hops s chain.id).length →
        StoreWrite.updateHopFunded
          ((get_relay_hops s chain.id).getD i default).id
          (env.txidOf
            { chain_id := chain.id
              source_key_enc := (keyList chain (get_relay_hops s chain.id)).getD i ""
              destination := (destList chain (get_relay_hops s chain.id)).getD i ""
              amount := env.keyBalance
                ((keyList chain (get_relay_hops s chain.id)).getD i "") -
                max env.feeMedium 200
              fee := max env.feeMedium 200 })
          (env.keyBalance ((keyList chain (get_relay_hops s chain.id)).getD i "") -
            max env.feeMedium 200) blk blk
          ∈ (process_chain env s chain blk).writes)) := by
  have hne' := isEmpty_eq_false_of_ne_nil hne
  have hfind : find_funds_location env chain (get_relay_hops s chain.id) =
      some (locOfIdx i,
        (env.balance ((addrList chain (get_relay_hops s chain.id)).getD i "")).1) := by
    rw [find_funds_location_spec, hfi]
    rfl
  have hlt := lowestFundedIndex_lt env chain (get_relay_hops s chain.id) i hfi
  rw [process_chain_eq_found env s chain blk _ _ hne' hfind]
  cases i with
  | zero =>
    cases hcons : get_relay_hops s chain.id with
    | nil => exact absurd hcons hne
    | cons h0 t =>
      simp only [locOfIdx, keyList, List.getD_cons_zero, destList,
        List.map_cons, List.cons_append]
      simp only [relay_from_location]
      by_cases hb : env.keyBalance chain.intake_privkey_encrypted ≤
          max env.feeMedium 200
      · rw [if_pos hb]
        refine ⟨fun _ => ⟨rfl, rfl, ?_⟩, fun hcon => absurd hb (by omega)⟩
        simp
      · rw [if_neg hb]
        refine ⟨fun hcon => absurd hcon hb, fun _ => ⟨?_, fun _ => ?_⟩⟩
        · rfl
        · simp [update_chain_amounts]
  | succ j =>
    have hj : j < (get_relay_hops s chain.id).length := by omega
    have hget : (get_relay_hops s chain.id)[j]? =
        some ((get_relay_hops s chain.id).getD j default) := by
      rw [List.getElem?_eq_getElem hj, List.getD_eq_getElem _ _ hj]
    simp only [locOfIdx, keyList, List.getD_cons_succ,
      map_getD_str _ _ _ hj]
    simp only [relay_from_location, hget]
    by_cases hmid : j < (get_relay_hops s chain.id).length - 1
    · have hjj : j + 1 < (get_relay_hops s chain.id).length := by omega
      have hdest : (destList chain (get_relay_hops s chain.id)).getD (j + 1) "" =
          ((get_relay_hops s chain.id).getD (j + 1) default).address := by
        rw [destList, List.getD_eq_getElem _ _ (by simp; omega),
          List.getElem_append_left (by simpa using hjj), List.getElem_map,
          List.getD_eq_getElem _ _ hjj]
      rw [if_pos hmid, hdest]
      dsimp only
      by_cases hb : env.keyBalance
          ((get_relay_hops s chain.id).getD j default).privkey_encrypted ≤
          max env.feeMedium 200
      · rw [if_pos hb]
        refine ⟨fun _ => ⟨rfl, rfl, ?_⟩, fun hcon => absurd hb (by omega)⟩
        simp
      · rw [if_neg hb]
        refine ⟨fun hcon => absurd hcon hb, fun _ => ⟨?_, fun _ => ?_⟩⟩
        · rfl
        · simp [update_chain_amounts]
    · have hjl : j + 1 = (get_relay_hops s chain.id).length := by omega
      have hdest : (destList chain (get_relay_hops s chain.id)).getD (j + 1) "" =
          chain.final_address := by
        rw [destList, List.getD_eq_getElem _ _ (by simp; omega),
          List.getElem_append_right (by simpa using Nat.le_of_eq hjl.symm)]
        simp [hjl]
      rw [if_neg hmid, hdest]
      dsimp only
      by_cases hb : env.keyBalance
          ((get_relay_hops s chain.id).getD j default).privkey_encrypted ≤
          max env.feeMedium 200
      · rw [if_pos hb]
        refine ⟨fun _ => ⟨rfl, rfl, ?_⟩, fun hcon => absurd hb (by omega)⟩
        simp
      · rw [if_neg hb]
        refine ⟨fun hcon => absurd hcon hb, fun _ => ⟨?_, fun hcon => ?_⟩⟩
        · simp
        · omega

/-! ## Per-chain broadcast attribution -/

theorem relay_broadcasts_facts (env : Env) (chain : ChainRow)
    (hops : List HopRow) (loc : Loc) (bal : Int) (blk : Nat) :
    (relay_from_location env chain hops loc bal blk).broadcasts.length ≤ 1 ∧
    ∀ b ∈ (relay_from_location env chain hops loc bal blk).broadcasts,
      b.chain_id = chain.id := by
  cases loc with
  | intake =>
    cases hops with
    | nil => simp [relay_from_location]
    | cons h0 t =>
      simp only [relay_from_location]
      split
      · simp
      · simp
  | hop i =>
    simp only [relay_from_location]
    cases hget : hops[i]? with
    | none => simp
    | some hi =>
      dsimp only
      by_cases hmid : i < hops.length - 1
      · rw [if_pos hmid]
        dsimp only
        split
        · simp
        · simp
      · rw [if_neg hmid]
        dsimp only
        split
        · simp
        · simp

theorem process_chain_broadcasts_facts (env : Env) (s : Store)
    (chain : ChainRow) (blk : Nat) :
    (process_chain env s chain blk).broadcasts.length ≤ 1 ∧
    ∀ b ∈ (process_chain env s chain blk).broadcasts,
      b.chain_id = chain.id := by
  by_cases hemp : (get_relay_hops s chain.id).isEmpty = true
  · simp [process_chain, hemp]
  · have hemp' : (get_relay_hops s chain.id).isEmpty = false := by
      simpa using hemp
    simp only [process_chain, hemp']
    cases hfind : find_funds_location env chain (get_relay_hops s chain.id) with
    | none =>
      dsimp only
      by_cases hfb : ((env.balance chain.final_address).1 > 0 ∨
          (env.balance chain.final_address).2 > 0)
      · rw [if_pos hfb]
        simp
      · rw [if_neg hfb]
        by_cases hib : ((env.balance chain.intake_address).1 = 0 ∧
            (env.balance chain.intake_address).2 = 0)
        · rw [if_pos hib]
          simp
        · rw [if_neg hib]
          simp
    | some lb =>
      obtain ⟨loc, bal⟩ := lb
      simp only
      exact relay_broadcasts_facts env chain (get_relay_hops s chain.id) loc
        bal blk

theorem active_ids_nodup (s : Store) (net : String) (hwf : WF s) :
    (((get_all_relay_chains s net).filter
        (fun c => c.status == "active")).map (fun c => c.id)).Nodup := by
  have h1 : ((s.chains.filter (fun c => c.network == net)).map
      (fun c => c.id)).Nodup :=
    ((List.filter_sublist _).map _).nodup hwf.1
  have h2 : ((get_all_relay_chains s net).map (fun c => c.id)).Nodup := by
    unfold get_all_relay_chains
    exact (List.Perm.nodup_iff ((sortBy_perm _ _).map _)).mpr h1
  exact ((List.filter_sublist _).map _).nodup h2

theorem filter_flatten_nil {α : Type} (p : α → Bool) (L : List (List α))
    (h : ∀ l ∈ L, l.filter p = []) : L.flatten.filter p = [] := by
  induction L with
  | nil => rfl
  | cons l t ih =>
    simp only [List.flatten_cons, List.filter_append]
    rw [h l (List.mem_cons_self l t), ih (fun l' hl' =>
      h l' (List.mem_cons_of_mem _ hl'))]
    rfl

theorem filter_flatten_of_mem (env : Env) (s : Store) (blk : Nat)
    (c : ChainRow) : ∀ (L : List ChainRow),
    ((L.map (fun x => x.id)).Nodup) → c ∈ L →
    (((L.map (fun x => (process_chain env s x blk).broadcasts)).flatten).filter
        (fun b => b.chain_id == c.id)) =
      (process_chain env s c blk).broadcasts := by
  have hother : ∀ c' : ChainRow, c'.id ≠ c.id →
      ((process_chain env s c' blk).broadcasts.filter
        (fun b => b.chain_id == c.id)) = [] := by
    intro c' hne'
    rw [List.filter_eq_nil_iff]
    intro b hb
    have := (process_chain_broadcasts_facts env s c' blk).2 b hb
    simp [this, hne']
  intro L
  induction L with
  | nil => intro _ hmem; exact absurd hmem (List.not_mem_nil c)
  | cons x t ih =>
    intro hnd hmem
    rw [List.map_cons] at hnd
    have hnd' := List.nodup_cons.mp hnd
    simp only [List.map_cons, List.flatten_cons, List.filter_append]
    rcases List.mem_cons.mp hmem with hcx | hct
    · subst hcx
      rw [List.filter_eq_self.mpr (by
        intro b hb
        have := (process_chain_broadcasts_facts env s c blk).2 b hb
        simp [this])]
      rw [filter_flatten_nil _ _ (by
        intro l hl
        rw [List.mem_map] at hl
        obtain ⟨c', hc', rfl⟩ := hl
        refine hother c' ?_
        intro heq
        exact hnd'.1 (by rw [← heq]; exact List.mem_map_of_mem _ hc'))]
      simp
    · have hxne : x.id ≠ c.id := by
        intro heq
        exact hnd'.1 (by rw [heq]; exact List.mem_map_of_mem _ hct)
      rw [hother x hxne, ih hnd'.2 hct]
      simp

theorem cycle_broadcasts_of_active (net : String) (env : Env) (s : Store)
    (c : ChainRow) (hwf : WF s)
    (hc : c ∈ (get_all_relay_chains s net).filter
      (fun x => x.status == "active")) :
    (process_cycle net env s).broadcasts.filter
        (fun b => b.chain_id == c.id) =
      (process_chain env s c env.tip).broadcasts := by
  unfold process_cycle
  have hne : ¬ ((get_all_relay_chains s net).filter
      (fun x => x.status == "active")).isEmpty = true := by
    intro h
    rw [List.isEmpty_iff] at h
    rw [h] at hc
    exact absurd hc (List.not_mem_nil c)
  rw [if_neg hne]
  dsimp only
  rw [List.map_map]
  exact filter_flatten_of_mem env s env.tip c _
    (active_ids_nodup s net hwf) hc

/-! ## Concrete scenario used by witnesses and counterexamples -/

/-- A concrete chain-client view: 1000 confirmed sats at the intake, fee
oracle medium estimate 100 sats, tip 100. -/
def sampleEnv : Env :=
  { tip := 100
    now := 7
    balance := fun a => if a = "addr_intake" then (1000, 0) else (0, 0)
    feeMedium := 100
    keyBalance := fun k => if k = "enc_intake" then 1000 else 0
    txidOf := fun _ => "txid1" }

/-- The same view with a live intake balance of only 150 sats. -/
def lowEnv : Env :=
  { sampleEnv with keyBalance := fun k => if k = "enc_intake" then 150 else 0 }

/-- A concrete active chain. -/
def sampleChain : ChainRow :=
  { (default : ChainRow) with
    id := 1
    name := "c"
    network := "testnet"
    status := "active"
    intake_address := "addr_intake"
    intake_privkey_encrypted := "enc_intake"
    final_address := "addr_final"
    total_hops := 1 }

/-- Its single hop, with `delay_blocks = 1`. -/
def sampleHop : HopRow :=
  { (default : HopRow) with
    id := 10
    chain_id := 1
    hop_number := 0
    address := "addr_hop0"
    privkey_encrypted := "enc_hop0"
    delay_blocks := 1
    status := "waiting" }

/-- The concrete store holding them. -/
def sampleStore : Store := ⟨[sampleChain], [sampleHop], [], []⟩

/-- The sweep transaction built for overall address index `i`: the whole
live balance of `K[i]` minus the fee, paid to `D[i]`. -/
def sweepAt (env : Env) (chain : ChainRow) (hops : List HopRow) (i : Nat) :
    Sweep :=
  { chain_id := chain.id
    source_key_enc := (keyList chain hops).getD i ""
    destination := (destList chain hops).getD i ""
    amount := env.keyBalance ((keyList chain hops).getD i "") -
      max env.feeMedium 200
    fee := max env.feeMedium 200 }

/-! ## C2, C4, C5: the sweep rule -/

/-- C2: in every engine cycle, an active chain whose ordered address list
`[intake, hop 0, ..., hop n-1]` has at least one address with positive
confirmed balance is swept from the lowest such index `i*`: the cycle
broadcasts, for that chain, exactly one transaction paying
`amount = balance - fee` from `K[i*]` to the successor destination `D[i*]`
(hop 0's address for the intake, the next hop's address for an
intermediate hop, the final address for the last hop).  The chain's hop
list is nonempty (the data model guarantees `2 ≤ total_hops`) and the live
balance exceeds the fee (the insufficient-balance case is claim C5's). -/
theorem c2_sweep_from_lowest_funded (net : String) (env : Env) (s : Store)
    (c : ChainRow) (i : Nat) (hwf : WF s)
    (hact : c ∈ (get_all_relay_chains s net).filter
      (fun x => x.status == "active"))
    (hne : get_relay_hops s c.id ≠ [])
    (hfi : lowestFundedIndex env c (get_relay_hops s c.id) = some i)
    (hsuff : max env.feeMedium 200 <
      env.keyBalance ((keyList c (get_relay_hops s c.id)).getD i "")) :
    (process_cycle net env s).broadcasts.filter
        (fun b => b.chain_id == c.id) =
      [{ chain_id := c.id
         source_key_enc := (keyList c (get_relay_hops s c.id)).getD i ""
         destination := (destList c (get_relay_hops s c.id)).getD i ""
         amount := env.keyBalance
           ((keyList c (get_relay_hops s c.id)).getD i "") -
           max env.feeMedium 200
         fee := max env.feeMedium 200 }] := by
  rw [cycle_broadcasts_of_active net env s c hwf hact]
  exact ((process_chain_sweep_spec env s c env.tip i hne hfi).2 hsuff).1

/-- Witness for C2: the sample chain is swept from the intake (index 0) to
hop 0's address, paying 1000 - 200 = 800 sats with fee 200. -/
theorem c2_sweep_from_lowest_funded_witness :
    WF sampleStore ∧
    (process_cycle "testnet" sampleEnv sampleStore).broadcasts.filter
        (fun b => b.chain_id == 1) =
      [{ chain_id := 1
         source_key_enc := "enc_intake"
         destination := "addr_hop0"
         amount := 800
         fee := 200 }] := by
  refine ⟨⟨by decide, by decide⟩, ?_⟩
  exact c2_sweep_from_lowest_funded "testnet" sampleEnv sampleStore
    sampleChain 0 ⟨by decide, by decide⟩ (by decide) (by decide) (by rfl)
    (by decide)

theorem cycle_filter_len_le (env : Env) (s : Store) (blk : Nat) (cid : Nat) :
    ∀ (L : List ChainRow), ((L.map (fun x => x.id)).Nodup) →
    (((L.map (fun x => (process_chain env s x blk).broadcasts)).flatten).filter
      (fun b => b.chain_id == cid)).length ≤ 1 := by
  intro L
  induction L with
  | nil => intro _; simp
  | cons x t ih =>
    intro hnd
    rw [List.map_cons] at hnd
    have hnd' := List.nodup_cons.mp hnd
    simp only [List.map_cons, List.flatten_cons, List.filter_append,
      List.length_append]
    by_cases hx : x.id = cid
    · have htail : (((t.map
          (fun x => (process_chain env s x blk).broadcasts)).flatten).filter
          (fun b => b.chain_id == cid)) = [] := by
        apply filter_flatten_nil
        intro l hl
        rw [List.mem_map] at hl
        obtain ⟨c', hc', rfl⟩ := hl
        rw [List.filter_eq_nil_iff]
        intro b hb
        have hbid := (process_chain_broadcasts_facts env s c' blk).2 b hb
        have hcne : c'.id ≠ cid := by
          intro heq
          exact hnd'.1 (by rw [hx, ← heq]; exact List.mem_map_of_mem _ hc')
        simp [hbid, hcne]
      rw [htail]
      have hlen := (process_chain_broadcasts_facts env s x blk).1
      have hfle := List.length_filter_le (fun b => b.chain_id == cid)
        (process_chain env s x blk).broadcasts
      simp only [List.length_nil]
      omega
    · have hhead : ((process_chain env s x blk).broadcasts.filter
          (fun b => b.chain_id == cid)) = [] := by
        rw [List.filter_eq_nil_iff]
        intro b hb
        have hbid := (process_chain_broadcasts_facts env s x blk).2 b hb
        simp [hbid, hx]
      rw [hhead]
      simpa using ih hnd'.2

/-- C4: at most one sweep transaction per chain per cycle: in any single
engine cycle, the broadcasts attributed to any one chain id number at most
one. -/
theorem c4_at_most_one_sweep_per_chain (net : String) (env : Env)
    (s : Store) (cid : Nat) (hwf : WF s) :
    ((process_cycle net env s).broadcasts.filter
      (fun b => b.chain_id == cid)).length ≤ 1 := by
  unfold process_cycle
  by_cases hemp : ((get_all_relay_chains s net).filter
      (fun c => c.status == "active")).isEmpty = true
  · rw [if_pos hemp]
    simp
  · rw [if_neg hemp]
    dsimp only
    rw [List.map_map]
    exact cycle_filter_len_le env s env.tip cid _ (active_ids_nodup s net hwf)

/-- Witness for C4 on the sample store. -/
theorem c4_at_most_one_sweep_per_chain_witness :
    WF sampleStore ∧
    ((process_cycle "testnet" sampleEnv sampleStore).broadcasts.filter
      (fun b => b.chain_id == 1)).length ≤ 1 :=
  ⟨⟨by decide, by decide⟩,
   c4_at_most_one_sweep_per_chain "testnet" sampleEnv sampleStore 1
     ⟨by decide, by decide⟩⟩

/-- C5: in the sweep step the fee is `max(oracle medium, 200)`.  When the
source key's live balance is at most this fee, no transaction is broadcast
and no Store write is made (the applied store is unchanged, so the still-
active chain is retried next cycle) and an insufficient-balance condition
is recorded in `processing_status`; when the balance strictly exceeds the
fee, the sweep proceeds with `amount = balance - fee` at exactly that fee. -/
theorem c5_fee_floor_and_insufficient_balance (env : Env) (s : Store)
    (chain : ChainRow) (blk : Nat) (i : Nat)
    (hne : get_relay_hops s chain.id ≠ [])
    (hfi : lowestFundedIndex env chain (get_relay_hops s chain.id) = some i) :
    (env.keyBalance ((keyList chain (get_relay_hops s chain.id)).getD i "") ≤
        max env.feeMedium 200 →
      (process_chain env s chain blk).broadcasts = [] ∧
      (process_chain env s chain blk).writes = [] ∧
      applyWrites env.now s (process_chain env s chain blk).writes = s ∧
      (chain.id, "Insufficient balance: " ++
          toString (env.keyBalance
            ((keyList chain (get_relay_hops s chain.id)).getD i "")) ++
          " sats") ∈ (process_chain env s chain blk).statusMsgs) ∧
    (max env.feeMedium 200 <
        env.keyBalance ((keyList chain (get_relay_hops s chain.id)).getD i "") →
      ∀ b ∈ (process_chain env s chain blk).broadcasts,
        b.amount = env.keyBalance
            ((keyList chain (get_relay_hops s chain.id)).getD i "") -
          max env.feeMedium 200 ∧
        b.fee = max env.feeMedium 200) := by
  have hspec := process_chain_sweep_spec env s chain blk i hne hfi
  constructor
  · intro hb
    obtain ⟨hw, hbr, hmsg⟩ := hspec.1 hb
    exact ⟨hbr, hw, by rw [hw]; rfl, hmsg⟩
  · intro hgt b hb
    rw [(hspec.2 hgt).1] at hb
    rw [List.mem_singleton] at hb
    subst hb
    exact ⟨rfl, rfl⟩

/-- Witness for C5: with a live balance of 150 sats and fee floor 200, the
sample chain's sweep is skipped with no writes and an insufficient-balance
status message. -/
theorem c5_fee_floor_and_insufficient_balance_witness :
    (150 : Int) ≤ max (100 : Int) 200 ∧
    (process_chain lowEnv sampleStore sampleChain 100).broadcasts = [] ∧
    (process_chain lowEnv sampleStore sampleChain 100).writes = [] ∧
    (1, "Insufficient balance: 150 sats") ∈
      (process_chain lowEnv sampleStore sampleChain 100).statusMsgs := by
  have h := (c5_fee_floor_and_insufficient_balance lowEnv sampleStore
    sampleChain 100 0 (by decide) (by rfl)).1 (by decide)
  exact ⟨by decide, h.1, h.2.1, h.2.2.2⟩

/-! ## C1: the recorded `relay_at_block` -/

/-- C1 counterexample: sweeping the sample chain (tip 100, hop 0 with
`delay_blocks = 1`) records hop 0 funded with `relay_at_block = 100`, the
tip itself — not `tip + delay_blocks = 101` as the claim states. -/
theorem c1_relay_at_block_counterexample :
    sampleHop.delay_blocks = 1 ∧
    StoreWrite.updateHopFunded 10 "txid1" 800 100 100 ∈
      (process_cycle "testnet" sampleEnv sampleStore).writes ∧
    ¬ StoreWrite.updateHopFunded 10 "txid1" 800 100 (100 + 1) ∈
      (process_cycle "testnet" sampleEnv sampleStore).writes := by
  refine ⟨rfl, ?_, ?_⟩ <;> decide

/-- C1 (amended): after a successful sweep broadcast whose destination is
an intermediate hop (overall index `i`, covering both the intake sweep
into hop 0 and a sweep into a middle hop), the engine records that hop as
`pending_relay` with `relay_at_block` equal to the current tip height
alone: `_relay_from_location` passes `relay_at_block=current_block`, and
the hop's `delay_blocks` is not added. -/
theorem c1_relay_at_block_amended (env : Env) (s : Store) (chain : ChainRow)
    (blk : Nat) (i : Nat)
    (hne : get_relay_hops s chain.id ≠ [])
    (hfi : lowestFundedIndex env chain (get_relay_hops s chain.id) = some i)
    (hsuff : max env.feeMedium 200 <
      env.keyBalance ((keyList chain (get_relay_hops s chain.id)).getD i ""))
    (hdest : i < (get_relay_hops s chain.id).length) :
    StoreWrite.updateHopFunded
        ((get_relay_hops s chain.id).getD i default).id
        (env.txidOf (sweepAt env chain (get_relay_hops s chain.id) i))
        (env.keyBalance ((keyList chain (get_relay_hops s chain.id)).getD i "") -
          max env.feeMedium 200) blk blk
      ∈ (process_chain env s chain blk).writes ∧
    ∀ h : HopRow, h.id = ((get_relay_hops s chain.id).getD i default).id →
      (hopRowUpd env.now
        (StoreWrite.updateHopFunded
          ((get_relay_hops s chain.id).getD i default).id
          (env.txidOf (sweepAt env chain (get_relay_hops s chain.id) i))
          (env.keyBalance
            ((keyList chain (get_relay_hops s chain.id)).getD i "") -
            max env.feeMedium 200) blk blk) h).status = "pending_relay" ∧
      (hopRowUpd env.now
        (StoreWrite.updateHopFunded
          ((get_relay_hops s chain.id).getD i default).id
          (env.txidOf (sweepAt env chain (get_relay_hops s chain.id) i))
          (env.keyBalance
            ((keyList chain (get_relay_hops s chain.id)).getD i "") -
            max env.feeMedium 200) blk blk) h).relay_at_block = some blk := by
  refine ⟨((process_chain_sweep_spec env s chain blk i hne hfi).2 hsuff).2
    hdest, ?_⟩
  intro h hh
  simp only [hopRowUpd]
  rw [if_pos hh]
  exact ⟨rfl, rfl⟩

/-- Witness for the amended C1 on the sample chain: hop 0 is recorded
funded at `relay_at_block = 100` (the tip). -/
theorem c1_relay_at_block_amended_witness :
    StoreWrite.updateHopFunded 10 "txid1" 800 100 100 ∈
      (process_chain sampleEnv sampleStore sampleChain 100).writes := by
  have h := (c1_relay_at_block_amended sampleEnv sampleStore sampleChain 100 0
    (by decide) (by rfl) (by decide) (by decide)).1
  exact h

/-! ## Evaluation lemmas for the row-update functions -/

@[simp] theorem chainRowUpd_hopFunded (now : Nat) (hid : Nat) (t : String)
    (amt : Int) (cb rb : Nat) (r : ChainRow) :
    chainRowUpd now (.updateHopFunded hid t amt cb rb) r = r := rfl

@[simp] theorem chainRowUpd_hopRelayed (now : Nat) (hid : Nat) (t : String)
    (amt fee : Int) (r : ChainRow) :
    chainRowUpd now (.updateHopRelayed hid t amt fee) r = r := rfl

@[simp] theorem chainRowUpd_hopStatus (now : Nat) (hid : Nat) (st : String)
    (r : ChainRow) : chainRowUpd now (.updateHopStatus hid st) r = r := rfl

@[simp] theorem chainRowUpd_log (now : Nat) (e : LogEntry) (r : ChainRow) :
    chainRowUpd now (.logTransaction e) r = r := rfl

@[simp] theorem chainRowUpd_blockHeight (now : Nat) (net : String) (h : Nat)
    (r : ChainRow) : chainRowUpd now (.updateBlockHeight net h) r = r := rfl

@[simp] theorem hopRowUpd_chainAmounts (now : Nat) (cid : Nat)
    (a b c : Option Int) (d : Option Nat) (h : HopRow) :
    hopRowUpd now (.updateChainAmounts cid a b c d) h = h := rfl

@[simp] theorem hopRowUpd_chainStatus (now : Nat) (cid : Nat) (st : String)
    (e : Option String) (h : HopRow) :
    hopRowUpd now (.updateChainStatus cid st e) h = h := rfl

@[simp] theorem hopRowUpd_log (now : Nat) (e : LogEntry) (h : HopRow) :
    hopRowUpd now (.logTransaction e) h = h := rfl

@[simp] theorem hopRowUpd_blockHeight (now : Nat) (net : String) (ht : Nat)
    (h : HopRow) : hopRowUpd now (.updateBlockHeight net ht) h = h := rfl

@[simp] theorem trackerUpd_chainAmounts (cid : Nat) (a b c : Option Int)
    (d : Option Nat) (t : List (String × Nat)) :
    trackerUpd (.updateChainAmounts cid a b c d) t = t := rfl

@[simp] theorem trackerUpd_hopFunded (hid : Nat) (tx : String) (amt : Int)
    (cb rb : Nat) (t : List (String × Nat)) :
    trackerUpd (.updateHopFunded hid tx amt cb rb) t = t := rfl

@[simp] theorem trackerUpd_hopRelayed (hid : Nat) (tx : String)
    (amt fee : Int) (t : List (String × Nat)) :
    trackerUpd (.updateHopRelayed hid tx amt fee) t = t := rfl

@[simp] theorem trackerUpd_chainStatus (cid : Nat) (st : String)
    (e : Option String) (t : List (String × Nat)) :
    trackerUpd (.updateChainStatus cid st e) t = t := rfl

@[simp] theorem trackerUpd_hopStatus (hid : Nat) (st : String)
    (t : List (String × Nat)) :
    trackerUpd (.updateHopStatus hid st) t = t := rfl

@[simp] theorem trackerUpd_log (e : LogEntry) (t : List (String × Nat)) :
    trackerUpd (.logTransaction e) t = t := rfl

@[simp] theorem logAdd_chainAmounts (cid : Nat) (a b c : Option Int)
    (d : Option Nat) : logAdd (.updateChainAmounts cid a b c d) = [] := rfl

@[simp] theorem logAdd_hopFunded (hid : Nat) (tx : String) (amt : Int)
    (cb rb : Nat) : logAdd (.updateHopFunded hid tx amt cb rb) = [] := rfl

@[simp] theorem logAdd_hopRelayed (hid : Nat) (tx : String) (amt fee : Int) :
    logAdd (.updateHopRelayed hid tx amt fee) = [] := rfl

@[simp] theorem logAdd_chainStatus (cid : Nat) (st : String)
    (e : Option String) : logAdd (.updateChainStatus cid st e) = [] := rfl

@[simp] theorem logAdd_hopStatus (hid : Nat) (st : String) :
    logAdd (.updateHopStatus hid st) = [] := rfl

@[simp] theorem logAdd_blockHeight (net : String) (h : Nat) :
    logAdd (.updateBlockHeight net h) = [] := rfl

/-! ## C9: frame property of `update_chain_amounts` -/

theorem map_id_of_eq {α : Type} (f : α → α) (l : List α)
    (h : ∀ a, f a = a) : l.map f = l := by
  induction l with
  | nil => rfl
  | cons x t ih => simp [h, ih]

theorem getD_map_of_lt {α β : Type} [Inhabited α] [Inhabited β]
    (f : α → β) (l : List α) (i : Nat) (h : i < l.length) :
    (l.map f).getD i default = f (l.getD i default) := by
  rw [List.getD_eq_getElem _ _ (by simpa using h), List.getD_eq_getElem _ _ h,
    List.getElem_map]

theorem chainAmountsRowUpd_frame (now : Nat) (cid : Nat) (a b c : Option Int)
    (d : Option Nat) (r : ChainRow) :
    (chainRowUpd now (.updateChainAmounts cid a b c d) r).id = r.id ∧
    (chainRowUpd now (.updateChainAmounts cid a b c d) r).name = r.name ∧
    (chainRowUpd now (.updateChainAmounts cid a b c d) r).network =
      r.network ∧
    (chainRowUpd now (.updateChainAmounts cid a b c d) r).status = r.status ∧
    (chainRowUpd now (.updateChainAmounts cid a b c d) r).intake_address =
      r.intake_address ∧
    (chainRowUpd now
        (.updateChainAmounts cid a b c d) r).intake_privkey_encrypted =
      r.intake_privkey_encrypted ∧
    (chainRowUpd now (.updateChainAmounts cid a b c d) r).final_address =
      r.final_address ∧
    (chainRowUpd now (.updateChainAmounts cid a b c d) r).final_is_generated =
      r.final_is_generated ∧
    (chainRowUpd now
        (.updateChainAmounts cid a b c d) r).final_privkey_encrypted =
      r.final_privkey_encrypted ∧
    (chainRowUpd now (.updateChainAmounts cid a b c d) r).total_hops =
      r.total_hops ∧
    (chainRowUpd now (.updateChainAmounts cid a b c d) r).created_at =
      r.created_at ∧
    (chainRowUpd now (.updateChainAmounts cid a b c d) r).started_at =
      r.started_at ∧
    (chainRowUpd now (.updateChainAmounts cid a b c d) r).completed_at =
      r.completed_at ∧
    (chainRowUpd now (.updateChainAmounts cid a b c d) r).error_message =
      r.error_message ∧
    (a = none →
      (chainRowUpd now
          (.updateChainAmounts cid a b c d) r).amount_received_sats =
        r.amount_received_sats) ∧
    (b = none →
      (chainRowUpd now (.updateChainAmounts cid a b c d) r).amount_sent_sats =
        r.amount_sent_sats) ∧
    (c = none →
      (chainRowUpd now (.updateChainAmounts cid a b c d) r).total_fees_sats =
        r.total_fees_sats) ∧
    (d = none →
      (chainRowUpd now (.updateChainAmounts cid a b c d) r).current_hop =
        r.current_hop) := by
  simp only [chainRowUpd]
  by_cases hid : r.id = cid
  · rw [if_pos hid]
    exact ⟨rfl, rfl, rfl, rfl, rfl, rfl, rfl, rfl, rfl, rfl, rfl, rfl, rfl,
      rfl, fun ha => by subst ha; rfl, fun hb => by subst hb; rfl,
      fun hc => by subst hc; rfl, fun hd => by subst hd; rfl⟩
  · rw [if_neg hid]
    exact ⟨rfl, rfl, rfl, rfl, rfl, rfl, rfl, rfl, rfl, rfl, rfl, rfl, rfl,
      rfl, fun _ => rfl, fun _ => rfl, fun _ => rfl, fun _ => rfl⟩

/-- C9: `update_chain_amounts` modifies only the chain columns corresponding
to arguments actually supplied and leaves every other column of every chain
row unchanged (as well as the hops, log and block tracker tables); when all
four optional arguments are `None` it performs no database write at all. -/
theorem c9_update_chain_amounts_frame (now : Nat) (s : Store) (cid : Nat)
    (a b c : Option Int) (d : Option Nat) :
    update_chain_amounts cid none none none none = [] ∧
    (applyWrites now s (update_chain_amounts cid a b c d)).hops = s.hops ∧
    (applyWrites now s (update_chain_amounts cid a b c d)).log = s.log ∧
    (applyWrites now s (update_chain_amounts cid a b c d)).blockTracker =
      s.blockTracker ∧
    (applyWrites now s (update_chain_amounts cid a b c d)).chains.length =
      s.chains.length ∧
    (∀ i, i < s.chains.length →
      ((applyWrites now s (update_chain_amounts cid a b c d)).chains.getD i
          default).id = (s.chains.getD i default).id ∧
      ((applyWrites now s (update_chain_amounts cid a b c d)).chains.getD i
          default).name = (s.chains.getD i default).name ∧
      ((applyWrites now s (update_chain_amounts cid a b c d)).chains.getD i
          default).network = (s.chains.getD i default).network ∧
      ((applyWrites now s (update_chain_amounts cid a b c d)).chains.getD i
          default).status = (s.chains.getD i default).status ∧
      ((applyWrites now s (update_chain_amounts cid a b c d)).chains.getD i
          default).intake_address = (s.chains.getD i default).intake_address ∧
      ((applyWrites now s (update_chain_amounts cid a b c d)).chains.getD i
          default).intake_privkey_encrypted =
        (s.chains.getD i default).intake_privkey_encrypted ∧
      ((applyWrites now s (update_chain_amounts cid a b c d)).chains.getD i
          default).final_address = (s.chains.getD i default).final_address ∧
      ((applyWrites now s (update_chain_amounts cid a b c d)).chains.getD i
          default).final_is_generated =
        (s.chains.getD i default).final_is_generated ∧
      ((applyWrites now s (update_chain_amounts cid a b c d)).chains.getD i
          default).final_privkey_encrypted =
        (s.chains.getD i default).final_privkey_encrypted ∧
      ((applyWrites now s (update_chain_amounts cid a b c d)).chains.getD i
          default).total_hops = (s.chains.getD i default).total_hops ∧
      ((applyWrites now s (update_chain_amounts cid a b c d)).chains.getD i
          default).created_at = (s.chains.getD i default).created_at ∧
      ((applyWrites now s (update_chain_amounts cid a b c d)).chains.getD i
          default).started_at = (s.chains.getD i default).started_at ∧
      ((applyWrites now s (update_chain_amounts cid a b c d)).chains.getD i
          default).completed_at = (s.chains.getD i default).completed_at ∧
      ((applyWrites now s (update_chain_amounts cid a b c d)).chains.getD i
          default).error_message = (s.chains.getD i default).error_message ∧
      (a = none →
        ((applyWrites now s (update_chain_amounts cid a b c d)).chains.getD i
            default).amount_received_sats =
          (s.chains.getD i default).amount_received_sats) ∧
      (b = none →
        ((applyWrites now s (update_chain_amounts cid a b c d)).chains.getD i
            default).amount_sent_sats =
          (s.chains.getD i default).amount_sent_sats) ∧
      (c = none →
        ((applyWrites now s (update_chain_amounts cid a b c d)).chains.getD i
            default).total_fees_sats =
          (s.chains.getD i default).total_fees_sats) ∧
      (d = none →
        ((applyWrites now s (update_chain_amounts cid a b c d)).chains.getD i
            default).current_hop = (s.chains.getD i default).current_hop)) := by
  refine ⟨rfl, ?_⟩
  unfold update_chain_amounts
  by_cases h : (a.isSome || b.isSome || c.isSome || d.isSome) = true
  · rw [if_pos h]
    have happ : applyWrites now s [StoreWrite.updateChainAmounts cid a b c d] =
        applyWrite now s (StoreWrite.updateChainAmounts cid a b c d) := rfl
    rw [happ]
    refine ⟨?_, ?_, ?_, ?_, ?_⟩
    · exact map_id_of_eq _ _ (fun x => rfl)
    · simp [applyWrite]
    · simp [applyWrite]
    · simp [applyWrite]
    · intro i hi
      have hch : (applyWrite now s
          (StoreWrite.updateChainAmounts cid a b c d)).chains =
          s.chains.map (chainRowUpd now
            (StoreWrite.updateChainAmounts cid a b c d)) := rfl
      rw [hch, getD_map_of_lt _ _ _ hi]
      exact chainAmountsRowUpd_frame now cid a b c d _
  · rw [if_neg h]
    exact ⟨rfl, rfl, rfl, rfl, fun i hi =>
      ⟨rfl, rfl, rfl, rfl, rfl, rfl, rfl, rfl, rfl, rfl, rfl, rfl, rfl, rfl,
       fun _ => rfl, fun _ => rfl, fun _ => rfl, fun _ => rfl⟩⟩

/-- Witness for C9: one concrete chain row, a supplied `amount_received`
update; status and the unsupplied amount columns are untouched, and the
all-`None` call issues no write. -/
theorem c9_update_chain_amounts_frame_witness :
    update_chain_amounts 1 none none none none = [] ∧
    ((applyWrites 5
        ⟨[{ (default : ChainRow) with id := 1, status := "active" }], [], [], []⟩
        (update_chain_amounts 1 (some 777) none none none)).chains.getD 0
          default).status =
      (((⟨[{ (default : ChainRow) with id := 1, status := "active" }], [], [],
          []⟩ : Store)).chains.getD 0 default).status :=
  ⟨(c9_update_chain_amounts_frame 5
      ⟨[{ (default : ChainRow) with id := 1, status := "active" }], [], [], []⟩
      1 (some 777) none none none).1,
   ((c9_update_chain_amounts_frame 5
      ⟨[{ (default : ChainRow) with id := 1, status := "active" }], [], [], []⟩
      1 (some 777) none none none).2.2.2.2.2 0 (by decide)).2.2.2.1⟩

/-! ## C3: write targets and frame reasoning -/

/-- The chain row a Store write updates, if any. -/
def chainTarget : StoreWrite → Option Nat
  | .updateChainAmounts cid _ _ _ _ => some cid
  | .updateChainStatus cid _ _ => some cid
  | _ => none

/-- The hop row a Store write updates, if any. -/
def hopTarget : StoreWrite → Option Nat
  | .updateHopFunded hid _ _ _ _ => some hid
  | .updateHopRelayed hid _ _ _ => some hid
  | .updateHopStatus hid _ => some hid
  | _ => none

/-- Cumulative effect of a write list on one chain row. -/
def chainRowApply (now : Nat) (ws : List StoreWrite) (r : ChainRow) :
    ChainRow :=
  ws.foldl (fun r w => chainRowUpd now w r) r

/-- Cumulative effect of a write list on one hop row. -/
def hopRowApply (now : Nat) (ws : List StoreWrite) (h : HopRow) : HopRow :=
  ws.foldl (fun h w => hopRowUpd now w h) h

theorem chainRowApply_cons (now : Nat) (w : StoreWrite) (ws : List StoreWrite)
    (r : ChainRow) :
    chainRowApply now (w :: ws) r = chainRowApply now ws (chainRowUpd now w r) :=
  rfl

theorem chainRowApply_append (now : Nat) (ws1 ws2 : List StoreWrite)
    (r : ChainRow) :
    chainRowApply now (ws1 ++ ws2) r =
      chainRowApply now ws2 (chainRowApply now ws1 r) := by
  unfold chainRowApply
  rw [List.foldl_append]

theorem hopRowApply_cons (now : Nat) (w : StoreWrite) (ws : List StoreWrite)
    (h : HopRow) :
    hopRowApply now (w :: ws) h = hopRowApply now ws (hopRowUpd now w h) :=
  rfl

theorem applyWrites_chains (now : Nat) : ∀ (ws : List StoreWrite) (s : Store),
    (applyWrites now s ws).chains = s.chains.map (chainRowApply now ws) := by
  intro ws
  induction ws with
  | nil => intro s; exact (map_id_of_eq _ _ (fun r => rfl)).symm
  | cons w ws ih =>
    intro s
    show (applyWrites now (applyWrite now s w) ws).chains = _
    rw [ih]
    show (s.chains.map (chainRowUpd now w)).map (chainRowApply now ws) = _
    rw [List.map_map]
    rfl

theorem applyWrites_hops (now : Nat) : ∀ (ws : List StoreWrite) (s : Store),
    (applyWrites now s ws).hops = s.hops.map (hopRowApply now ws) := by
  intro ws
  induction ws with
  | nil => intro s; exact (map_id_of_eq _ _ (fun r => rfl)).symm
  | cons w ws ih =>
    intro s
    show (applyWrites now (applyWrite now s w) ws).hops = _
    rw [ih]
    show (s.hops.map (hopRowUpd now w)).map (hopRowApply now ws) = _
    rw [List.map_map]
    rfl

theorem chainRowUpd_frame (now : Nat) (w : StoreWrite) (r : ChainRow)
    (h : chainTarget w ≠ some r.id) : chainRowUpd now w r = r := by
  cases w with
  | updateChainAmounts cid a b c d =>
    have hne : ¬ r.id = cid := fun hh => h (by simp [chainTarget, hh])
    simp [chainRowUpd, hne]
  | updateChainStatus cid st e =>
    have hne : ¬ r.id = cid := fun hh => h (by simp [chainTarget, hh])
    simp [chainRowUpd, hne]
  | updateHopFunded hid tx amt cb rb => rfl
  | updateHopRelayed hid tx amt fee => rfl
  | updateHopStatus hid st => rfl
  | logTransaction e => rfl
  | updateBlockHeight net ht => rfl

theorem hopRowUpd_frame (now : Nat) (w : StoreWrite) (hr : HopRow)
    (h : hopTarget w ≠ some hr.id) : hopRowUpd now w hr = hr := by
  cases w with
  | updateHopFunded hid tx amt cb rb =>
    have hne : ¬ hr.id = hid := fun hh => h (by simp [hopTarget, hh])
    simp [hopRowUpd, hne]
  | updateHopRelayed hid tx amt fee =>
    have hne : ¬ hr.id = hid := fun hh => h (by simp [hopTarget, hh])
    simp [hopRowUpd, hne]
  | updateHopStatus hid st =>
    have hne : ¬ hr.id = hid := fun hh => h (by simp [hopTarget, hh])
    simp [hopRowUpd, hne]
  | updateChainAmounts cid a b c d => rfl
  | updateChainStatus cid st e => rfl
  | logTransaction e => rfl
  | updateBlockHeight net ht => rfl

theorem chainRowApply_frame (now : Nat) (ws : List StoreWrite) (r : ChainRow)
    (h : ∀ w ∈ ws, chainTarget w ≠ some r.id) : chainRowApply now ws r = r := by
  induction ws with
  | nil => rfl
  | cons w ws ih =>
    rw [chainRowApply_cons, chainRowUpd_frame now w r
      (h w (List.mem_cons_self w ws))]
    exact ih (fun w' hw' => h w' (List.mem_cons_of_mem _ hw'))

theorem hopRowApply_frame (now : Nat) (ws : List StoreWrite) (hr : HopRow)
    (h : ∀ w ∈ ws, hopTarget w ≠ some hr.id) : hopRowApply now ws hr = hr := by
  induction ws with
  | nil => rfl
  | cons w ws ih =>
    rw [hopRowApply_cons, hopRowUpd_frame now w hr
      (h w (List.mem_cons_self w ws))]
    exact ih (fun w' hw' => h w' (List.mem_cons_of_mem _ hw'))

theorem chainRowUpd_preserves (now : Nat) (w : StoreWrite) (r : ChainRow) :
    (chainRowUpd now w r).id = r.id ∧
    (chainRowUpd now w r).network = r.network ∧
    (chainRowUpd now w r).created_at = r.created_at := by
  cases w <;> simp only [chainRowUpd] <;> (try split) <;> simp

theorem chainRowApply_preserves (now : Nat) (ws : List StoreWrite) :
    ∀ (r : ChainRow),
    (chainRowApply now ws r).id = r.id ∧
    (chainRowApply now ws r).network = r.network ∧
    (chainRowApply now ws r).created_at = r.created_at := by
  induction ws with
  | nil => intro r; exact ⟨rfl, rfl, rfl⟩
  | cons w ws ih =>
    intro r
    rw [chainRowApply_cons]
    obtain ⟨h1, h2, h3⟩ := ih (chainRowUpd now w r)
    obtain ⟨g1, g2, g3⟩ := chainRowUpd_preserves now w r
    exact ⟨h1.trans g1, h2.trans g2, h3.trans g3⟩

theorem hopRowUpd_preserves (now : Nat) (w : StoreWrite) (hr : HopRow) :
    (hopRowUpd now w hr).id = hr.id ∧
    (hopRowUpd now w hr).chain_id = hr.chain_id ∧
    (hopRowUpd now w hr).hop_number = hr.hop_number := by
  cases w <;> simp only [hopRowUpd] <;> (try split) <;> simp

theorem hopRowApply_preserves (now : Nat) (ws : List StoreWrite) :
    ∀ (hr : HopRow),
    (hopRowApply now ws hr).id = hr.id ∧
    (hopRowApply now ws hr).chain_id = hr.chain_id ∧
    (hopRowApply now ws hr).hop_number = hr.hop_number := by
  induction ws with
  | nil => intro hr; exact ⟨rfl, rfl, rfl⟩
  | cons w ws ih =>
    intro hr
    rw [hopRowApply_cons]
    obtain ⟨h1, h2, h3⟩ := ih (hopRowUpd now w hr)
    obtain ⟨g1, g2, g3⟩ := hopRowUpd_preserves now w hr
    exact ⟨h1.trans g1, h2.trans g2, h3.trans g3⟩

theorem filter_map_comm {α : Type} (F : α → α) (p : α → Bool) (l : List α) :
    (l.map F).filter p = (l.filter (fun x => p (F x))).map F := by
  induction l with
  | nil => rfl
  | cons x t ih =>
    simp only [List.map_cons, List.filter_cons]
    by_cases h : p (F x) = true
    · rw [if_pos h, if_pos h, List.map_cons, ih]
    · rw [if_neg h, if_neg h, ih]

theorem map_eq_self_of_mem {α : Type} (F : α → α) (l : List α)
    (h : ∀ x ∈ l, F x = x) : l.map F = l := by
  induction l with
  | nil => rfl
  | cons x t ih =>
    rw [List.map_cons, h x (List.mem_cons_self x t),
      ih (fun y hy => h y (List.mem_cons_of_mem _ hy))]

theorem insertBy_map_congr {α : Type} (le : α → α → Bool) (F : α → α)
    (hc : ∀ x y, le (F x) (F y) = le x y) (a : α) :
    ∀ l : List α, insertBy le (F a) (l.map F) = (insertBy le a l).map F := by
  intro l
  induction l with
  | nil => rfl
  | cons b t ih =>
    simp only [List.map_cons, insertBy, hc a b]
    by_cases h : le a b = true
    · rw [if_pos h, if_pos h, List.map_cons, List.map_cons]
    · rw [if_neg h, if_neg h, List.map_cons, ih]

theorem sortBy_map_congr {α : Type} (le : α → α → Bool) (F : α → α)
    (hc : ∀ x y, le (F x) (F y) = le x y) :
    ∀ l : List α, sortBy le (l.map F) = (sortBy le l).map F := by
  intro l
  induction l with
  | nil => rfl
  | cons x t ih =>
    simp only [List.map_cons, sortBy]
    rw [ih, insertBy_map_congr le F hc]

theorem update_chain_amounts_targets (cid : Nat) (a b c : Option Int)
    (d : Option Nat) (w : StoreWrite)
    (hw : w ∈ update_chain_amounts cid a b c d) :
    chainTarget w = some cid ∧ hopTarget w = none := by
  unfold update_chain_amounts at hw
  by_cases h : (a.isSome || b.isSome || c.isSome || d.isSome) = true
  · rw [if_pos h, List.mem_singleton] at hw
    subst hw
    exact ⟨rfl, rfl⟩
  · rw [if_neg h] at hw
    exact absurd hw (List.not_mem_nil w)

theorem complete_status_mem (env : Env) (chain : ChainRow)
    (hops : List HopRow) :
    StoreWrite.updateChainStatus chain.id "completed" none ∈
      (complete_chain env chain hops).writes := by
  simp only [complete_chain]
  apply List.mem_append_left
  apply List.mem_append_left
  apply List.mem_append_right
  exact List.mem_singleton_self _

theorem complete_chain_write_targets (env : Env) (chain : ChainRow)
    (hops : List HopRow) (w : StoreWrite)
    (hw : w ∈ (complete_chain env chain hops).writes) :
    (∀ cid, chainTarget w = some cid → cid = chain.id) ∧
    (∀ hid, hopTarget w = some hid → ∃ h, h ∈ hops ∧ h.id = hid) := by
  simp only [complete_chain] at hw
  rcases List.mem_append.mp hw with h1 | h1
  · rcases List.mem_append.mp h1 with h2 | h2
    · rcases List.mem_append.mp h2 with h3 | h3
      · obtain ⟨hct, hht⟩ := update_chain_amounts_targets _ _ _ _ _ _ h3
        constructor
        · intro cid hcid
          rw [hct] at hcid
          exact (Option.some.inj hcid).symm
        · intro hid hhid
          rw [hht] at hhid
          exact absurd hhid (by simp)
      · rw [List.mem_singleton] at h3
        subst h3
        constructor
        · intro cid hcid
          exact (Option.some.inj hcid).symm
        · intro hid hhid
          exact absurd hhid (by simp [hopTarget])
    · rw [List.mem_map] at h2
      obtain ⟨h, hh, rfl⟩ := h2
      constructor
      · intro cid hcid
        exact absurd hcid (by simp [chainTarget])
      · intro hid hhid
        refine ⟨h, (List.mem_filter.mp hh).1, ?_⟩
        simpa [hopTarget] using hhid
  · rw [List.mem_singleton] at h1
    subst h1
    constructor
    · intro cid hcid
      exact absurd hcid (by simp [chainTarget])
    · intro hid hhid
      exact absurd hhid (by simp [hopTarget])

theorem relay_write_targets (env : Env) (chain : ChainRow)
    (hops : List HopRow) (loc : Loc) (bal : Int) (blk : Nat) (w : StoreWrite)
    (hw : w ∈ (relay_from_location env chain hops loc bal blk).writes) :
    (∀ cid, chainTarget w = some cid → cid = chain.id) ∧
    (∀ hid, hopTarget w = some hid → ∃ h, h ∈ hops ∧ h.id = hid) := by
  cases loc with
  | intake =>
    cases hops with
    | nil =>
      simp only [relay_from_location, List.mem_singleton] at hw
      subst hw
      exact ⟨fun cid hcid => absurd hcid (by simp [chainTarget]),
        fun hid hhid => absurd hhid (by simp [hopTarget])⟩
    | cons h0 t =>
      simp only [relay_from_location] at hw
      by_cases hb : env.keyBalance chain.intake_privkey_encrypted ≤
          max env.feeMedium 200
      · rw [if_pos hb] at hw
        exact absurd hw (List.not_mem_nil w)
      · rw [if_neg hb] at hw
        dsimp only at hw
        rcases List.mem_append.mp hw with h1 | h1
        · rcases List.mem_append.mp h1 with h2 | h2
          · rcases List.mem_append.mp h2 with h3 | h3
            · obtain ⟨hct, hht⟩ := update_chain_amounts_targets _ _ _ _ _ _ h3
              constructor
              · intro cid hcid
                rw [hct] at hcid
                exact (Option.some.inj hcid).symm
              · intro hid hhid
                rw [hht] at hhid
                exact absurd hhid (by simp)
            · rw [List.mem_singleton] at h3
              subst h3
              constructor
              · intro cid hcid
                exact absurd hcid (by simp [chainTarget])
              · intro hid hhid
                refine ⟨h0, List.mem_cons_self h0 t, ?_⟩
                simpa [hopTarget] using hhid
          · rw [List.mem_singleton] at h2
            subst h2
            exact ⟨fun cid hcid => absurd hcid (by simp [chainTarget]),
              fun hid hhid => absurd hhid (by simp [hopTarget])⟩
        · exact absurd h1 (List.not_mem_nil w)
  | hop i =>
    simp only [relay_from_location] at hw
    cases hget : hops[i]? with
    | none =>
      simp only [hget, List.mem_singleton] at hw
      subst hw
      exact ⟨fun cid hcid => absurd hcid (by simp [chainTarget]),
        fun hid hhid => absurd hhid (by simp [hopTarget])⟩
    | some hi =>
      have hilt : i < hops.length := by
        obtain ⟨h, _⟩ := List.getElem?_eq_some_iff.mp hget
        exact h
      simp only [hget] at hw
      by_cases hmid : i < hops.length - 1
      · rw [if_pos hmid] at hw
        dsimp only at hw
        by_cases hb : env.keyBalance hi.privkey_encrypted ≤
            max env.feeMedium 200
        · rw [if_pos hb] at hw
          exact absurd hw (List.not_mem_nil w)
        · rw [if_neg hb] at hw
          dsimp only at hw
          rcases List.mem_append.mp hw with h1 | h1
          · rcases List.mem_append.mp h1 with h2 | h2
            · rcases List.mem_append.mp h2 with h3 | h3
              · rcases List.mem_append.mp h3 with h4 | h4
                · rw [List.mem_singleton] at h4
                  subst h4
                  constructor
                  · intro cid hcid
                    exact absurd hcid (by simp [chainTarget])
                  · intro hid hhid
                    refine ⟨hops.getD i default, ?_, ?_⟩
                    · rw [List.getD_eq_getElem _ _ hilt]
                      exact List.getElem_mem hilt
                    · simpa [hopTarget] using hhid
                · rw [List.mem_singleton] at h4
                  subst h4
                  constructor
                  · intro cid hcid
                    exact absurd hcid (by simp [chainTarget])
                  · intro hid hhid
                    have hjj : i + 1 < hops.length := by omega
                    refine ⟨hops.getD (i + 1) default, ?_, ?_⟩
                    · rw [List.getD_eq_getElem _ _ hjj]
                      exact List.getElem_mem hjj
                    · simpa [hopTarget] using hhid
              · obtain ⟨hct, hht⟩ :=
                  update_chain_amounts_targets _ _ _ _ _ _ h3
                constructor
                · intro cid hcid
                  rw [hct] at hcid
                  exact (Option.some.inj hcid).symm
                · intro hid hhid
                  rw [hht] at hhid
                  exact absurd hhid (by simp)
            · rw [List.mem_singleton] at h2
              subst h2
              exact ⟨fun cid hcid => absurd hcid (by simp [chainTarget]),
                fun hid hhid => absurd hhid (by simp [hopTarget])⟩
          · exact absurd h1 (List.not_mem_nil w)
      · rw [if_neg hmid] at hw
        dsimp only at hw
        by_cases hb : env.keyBalance hi.privkey_encrypted ≤
            max env.feeMedium 200
        · rw [if_pos hb] at hw
          exact absurd hw (List.not_mem_nil w)
        · rw [if_neg hb] at hw
          dsimp only at hw
          rcases List.mem_append.mp hw with h1 | h1
          · rcases List.mem_append.mp h1 with h2 | h2
            · rcases List.mem_append.mp h2 with h3 | h3
              · rcases List.mem_append.mp h3 with h4 | h4
                · rw [List.mem_singleton] at h4
                  subst h4
                  constructor
                  · intro cid hcid
                    exact absurd hcid (by simp [chainTarget])
                  · intro hid hhid
                    refine ⟨hops.getD i default, ?_, ?_⟩
                    · rw [List.getD_eq_getElem _ _ hilt]
                      exact List.getElem_mem hilt
                    · simpa [hopTarget] using hhid
                · exact absurd h4 (List.not_mem_nil w)
              · obtain ⟨hct, hht⟩ :=
                  update_chain_amounts_targets _ _ _ _ _ _ h3
                constructor
                · intro cid hcid
                  rw [hct] at hcid
                  exact (Option.some.inj hcid).symm
                · intro hid hhid
                  rw [hht] at hhid
                  exact absurd hhid (by simp)
            · rw [List.mem_singleton] at h2
              subst h2
              exact ⟨fun cid hcid => absurd hcid (by simp [chainTarget]),
                fun hid hhid => absurd hhid (by simp [hopTarget])⟩
          · exact complete_chain_write_targets env chain hops w h1

theorem process_chain_write_targets (env : Env) (s : Store)
    (chain : ChainRow) (blk : Nat) (w : StoreWrite)
    (hw : w ∈ (process_chain env s chain blk).writes) :
    (∀ cid, chainTarget w = some cid → cid = chain.id) ∧
    (∀ hid, hopTarget w = some hid →
      ∃ h, h ∈ get_relay_hops s chain.id ∧ h.id = hid) := by
  by_cases hemp : (get_relay_hops s chain.id).isEmpty = true
  · rw [show (process_chain env s chain blk).writes = [] by
      simp [process_chain, hemp]] at hw
    exact absurd hw (List.not_mem_nil w)
  · have hemp' : (get_relay_hops s chain.id).isEmpty = false := by
      simpa using hemp
    cases hfind : find_funds_location env chain (get_relay_hops s chain.id) with
    | some lb =>
      obtain ⟨loc, bal⟩ := lb
      rw [process_chain_eq_found env s chain blk loc bal hemp' hfind] at hw
      exact relay_write_targets env chain (get_relay_hops s chain.id) loc bal
        blk w hw
    | none =>
      simp only [process_chain, hemp', hfind] at hw
      by_cases hfb : ((env.balance chain.final_address).1 > 0 ∨
          (env.balance chain.final_address).2 > 0)
      · rw [if_pos hfb] at hw
        exact complete_chain_write_targets env chain
          (get_relay_hops s chain.id) w hw
      · rw [if_neg hfb] at hw
        by_cases hib : ((env.balance chain.intake_address).1 = 0 ∧
            (env.balance chain.intake_address).2 = 0)
        · rw [if_pos hib] at hw
          exact absurd hw (List.not_mem_nil w)
        · rw [if_neg hib] at hw
          exact absurd hw (List.not_mem_nil w)

theorem process_chain_no_broadcast_writes (env : Env) (s : Store)
    (chain : ChainRow) (blk : Nat)
    (hb : (process_chain env s chain blk).broadcasts = []) :
    (process_chain env s chain blk).writes = [] ∨
    ((process_chain env s chain blk).writes =
        (complete_chain env chain (get_relay_hops s chain.id)).writes ∧
      StoreWrite.updateChainStatus chain.id "completed" none ∈
        (process_chain env s chain blk).writes) := by
  by_cases hemp : (get_relay_hops s chain.id).isEmpty = true
  · left
    simp [process_chain, hemp]
  · have hemp' : (get_relay_hops s chain.id).isEmpty = false := by
      simpa using hemp
    have hne : get_relay_hops s chain.id ≠ [] := by
      intro h
      rw [h] at hemp'
      simp at hemp'
    cases hfind : find_funds_location env chain (get_relay_hops s chain.id) with
    | some lb =>
      obtain ⟨loc, bal⟩ := lb
      have hfind' := hfind
      rw [find_funds_location_spec] at hfind'
      cases hfi : lowestFundedIndex env chain (get_relay_hops s chain.id) with
      | none =>
        rw [hfi] at hfind'
        simp at hfind'
      | some i =>
        have hspec := process_chain_sweep_spec env s chain blk i hne hfi
        by_cases hle : env.keyBalance
            ((keyList chain (get_relay_hops s chain.id)).getD i "") ≤
            max env.feeMedium 200
        · left
          exact (hspec.1 hle).1
        · exfalso
          have hbc := (hspec.2 (by omega)).1
          rw [hb] at hbc
          simp at hbc
    | none =>
      by_cases hfb : ((env.balance chain.final_address).1 > 0 ∨
          (env.balance chain.final_address).2 > 0)
      · right
        constructor
        · simp only [process_chain, hemp', hfind]
          rw [if_neg (by decide : ¬ (false = true)), if_pos hfb]
        · simp only [process_chain, hemp', hfind]
          rw [if_neg (by decide : ¬ (false = true)), if_pos hfb]
          exact complete_status_mem env chain (get_relay_hops s chain.id)
      · left
        simp only [process_chain, hemp', hfind]
        rw [if_neg (by decide : ¬ (false = true)), if_neg hfb]
        by_cases hib : ((env.balance chain.intake_address).1 = 0 ∧
            (env.balance chain.intake_address).2 = 0)
        · rw [if_pos hib]
        · rw [if_neg hib]

/-- The active chains one cycle processes (`_process_cycle` lines 111-112). -/
def cycleActive (net : String) (s : Store) : List ChainRow :=
  (get_all_relay_chains s net).filter (fun c => c.status == "active")

theorem process_cycle_eq (net : String) (env : Env) (s : Store)
    (h : (cycleActive net s).isEmpty = false) :
    (process_cycle net env s).writes =
      ((cycleActive net s).map
        (fun c => (process_chain env s c env.tip).writes)).flatten ++
        [.updateBlockHeight net env.tip] ∧
    (process_cycle net env s).broadcasts =
      ((cycleActive net s).map
        (fun c => (process_chain env s c env.tip).broadcasts)).flatten := by
  unfold cycleActive at h
  unfold process_cycle
  rw [if_neg (by rw [h]; decide)]
  dsimp only
  rw [List.map_map, List.map_map]
  exact ⟨rfl, rfl⟩

theorem process_cycle_empty (net : String) (env : Env) (s : Store)
    (h : (cycleActive net s).isEmpty = true) :
    process_cycle net env s =
      ⟨[StoreWrite.updateBlockHeight net env.tip], [], []⟩ := by
  unfold cycleActive at h
  unfold process_cycle
  rw [if_pos h]

theorem cycle_write_sources (net : String) (env : Env) (s : Store)
    (w : StoreWrite) (hw : w ∈ (process_cycle net env s).writes) :
    w = .updateBlockHeight net env.tip ∨
    ∃ c ∈ cycleActive net s, w ∈ (process_chain env s c env.tip).writes := by
  by_cases hemp : (cycleActive net s).isEmpty = true
  · left
    rw [show (process_cycle net env s).writes =
        [.updateBlockHeight net env.tip] by
      unfold process_cycle cycleActive at *
      rw [if_pos hemp]] at hw
    exact (List.mem_singleton.mp hw)
  · have hemp' : (cycleActive net s).isEmpty = false := by simpa using hemp
    rw [(process_cycle_eq net env s hemp').1] at hw
    rcases List.mem_append.mp hw with h1 | h1
    · right
      rw [List.mem_flatten] at h1
      obtain ⟨l, hl, hwl⟩ := h1
      rw [List.mem_map] at hl
      obtain ⟨c, hc, rfl⟩ := hl
      exact ⟨c, hc, hwl⟩
    · left
      exact List.mem_singleton.mp h1

theorem nodup_map_split {α β : Type} (f : α → β) (A1 A2 : List α) (c : α)
    (hnd : ((A1 ++ c :: A2).map f).Nodup) :
    (∀ x ∈ A1, f x ≠ f c) ∧ (∀ x ∈ A2, f x ≠ f c) := by
  rw [List.map_append, List.map_cons] at hnd
  have hdis := (List.nodup_append.mp hnd).2.2
  have h2 := (List.nodup_append.mp hnd).2.1
  constructor
  · intro x hx heq
    exact hdis (List.mem_map_of_mem f hx)
      (by rw [heq]; exact List.mem_cons_self _ _)
  · intro x hx heq
    rw [List.nodup_cons] at h2
    exact h2.1 (by rw [← heq]; exact List.mem_map_of_mem f hx)

theorem update_chain_amounts_some2 (cid : Nat) (A B : Int) :
    update_chain_amounts cid none (some A) (some B) none =
      [.updateChainAmounts cid none (some A) (some B) none] := rfl

theorem chainRowApply_complete_status (now : Nat) (env : Env)
    (chain : ChainRow) (hops : List HopRow) (r : ChainRow)
    (hr : r.id = chain.id) :
    (chainRowApply now (complete_chain env chain hops).writes r).status =
      "completed" := by
  simp only [complete_chain, update_chain_amounts_some2]
  rw [chainRowApply_append, chainRowApply_append, chainRowApply_append]
  set r1 := chainRowApply now
    [StoreWrite.updateChainAmounts chain.id none (some _) (some _) none] r
    with hr1
  have hid1 : r1.id = r.id := (chainRowApply_preserves now _ r).1
  set r2 := chainRowApply now
    [StoreWrite.updateChainStatus chain.id "completed" none] r1 with hr2
  have hst2 : r2.status = "completed" := by
    rw [hr2]
    show (chainRowUpd now
      (StoreWrite.updateChainStatus chain.id "completed" none) r1).status =
      "completed"
    simp [chainRowUpd, hid1.trans hr]
  have hid2 : r2.id = r1.id := (chainRowApply_preserves now _ r1).1
  set r3 := chainRowApply now
    ((hops.filter (fun h => !(h.status == "relayed"))).map
      (fun h => StoreWrite.updateHopStatus h.id "relayed")) r2 with hr3
  have hr3eq : r3 = r2 := by
    rw [hr3]
    apply chainRowApply_frame
    intro w hw
    rw [List.mem_map] at hw
    obtain ⟨h, _, rfl⟩ := hw
    simp [chainTarget]
  rw [show chainRowApply now [StoreWrite.logTransaction _] r3 = r3 from rfl]
  rw [hr3eq]
  exact hst2

theorem mem_cycleActive_chains (net : String) (s : Store) (c : ChainRow)
    (hc : c ∈ cycleActive net s) :
    c ∈ s.chains ∧ c.network = net ∧ c.status = "active" := by
  unfold cycleActive at hc
  rw [List.mem_filter] at hc
  obtain ⟨h1, h2⟩ := hc
  obtain ⟨h3, h4⟩ := mem_get_all_relay_chains s net c h1
  exact ⟨h3, h4, by simpa using h2⟩

theorem cycleActive_of_mem (net : String) (s : Store) (c : ChainRow)
    (hc : c ∈ s.chains) (hnet : c.network = net) (hst : c.status = "active") :
    c ∈ cycleActive net s := by
  unfold cycleActive get_all_relay_chains
  rw [List.mem_filter, mem_sortBy, List.mem_filter]
  exact ⟨⟨hc, by simp [hnet]⟩, by simp [hst]⟩

theorem cycle_chain_frame (net : String) (env : Env) (s : Store)
    (r : ChainRow)
    (hno : ∀ c ∈ cycleActive net s, c.id = r.id →
      (process_chain env s c env.tip).writes = []) :
    chainRowApply env.now (process_cycle net env s).writes r = r := by
  apply chainRowApply_frame
  intro w hw hct
  rcases cycle_write_sources net env s w hw with rfl | ⟨c, hcA, hcw⟩
  · simp [chainTarget] at hct
  · have hcid := (process_chain_write_targets env s c env.tip w hcw).1 r.id hct
    have hwc := hno c hcA hcid.symm
    rw [hwc] at hcw
    exact absurd hcw (List.not_mem_nil w)

theorem cycle_hop_frame (net : String) (env : Env) (s : Store) (hwf : WF s)
    (hr : HopRow) (hmem : hr ∈ s.hops)
    (hno : ∀ c ∈ cycleActive net s, c.id = hr.chain_id →
      (process_chain env s c env.tip).writes = []) :
    hopRowApply env.now (process_cycle net env s).writes hr = hr := by
  apply hopRowApply_frame
  intro w hw hht
  rcases cycle_write_sources net env s w hw with rfl | ⟨c, hcA, hcw⟩
  · simp [hopTarget] at hht
  · obtain ⟨h, hhh, hhid⟩ :=
      (process_chain_write_targets env s c env.tip w hcw).2 hr.id hht
    obtain ⟨hhs, hhc⟩ := mem_get_relay_hops s c.id h hhh
    have heq : h = hr := List.inj_on_of_nodup_map hwf.2 hhs hmem hhid
    rw [heq] at hhc
    have hwc := hno c hcA hhc.symm
    rw [hwc] at hcw
    exact absurd hcw (List.not_mem_nil w)

theorem cycle_completer_status (net : String) (env : Env) (s : Store)
    (hwf : WF s) (c : ChainRow) (hcA : c ∈ cycleActive net s)
    (hcw : (process_chain env s c env.tip).writes =
      (complete_chain env c (get_relay_hops s c.id)).writes) :
    (chainRowApply env.now (process_cycle net env s).writes c).status =
      "completed" := by
  have hemp' : (cycleActive net s).isEmpty = false :=
    isEmpty_eq_false_of_ne_nil (fun h => by
      rw [h] at hcA
      exact absurd hcA (List.not_mem_nil c))
  rw [(process_cycle_eq net env s hemp').1]
  obtain ⟨A1, A2, hsplit⟩ := List.append_of_mem hcA
  have hnd : ((cycleActive net s).map (fun x => x.id)).Nodup :=
    active_ids_nodup s net hwf
  rw [hsplit] at hnd
  obtain ⟨hA1, hA2⟩ := nodup_map_split (fun x => x.id) A1 A2 c hnd
  rw [hsplit, List.map_append, List.map_cons, List.flatten_append,
    List.flatten_cons]
  rw [chainRowApply_append, chainRowApply_append, chainRowApply_append]
  have h1 : chainRowApply env.now
      ((A1.map (fun c => (process_chain env s c env.tip).writes)).flatten)
      c = c := by
    apply chainRowApply_frame
    intro w hw hct
    rw [List.mem_flatten] at hw
    obtain ⟨l, hl, hwl⟩ := hw
    rw [List.mem_map] at hl
    obtain ⟨cc, hcc, rfl⟩ := hl
    have hcid := (process_chain_write_targets env s cc env.tip w hwl).1
      c.id hct
    exact hA1 cc hcc (by rw [← hcid])
  rw [h1, hcw]
  set r2 := chainRowApply env.now
    (complete_chain env c (get_relay_hops s c.id)).writes c with hr2
  have h2 : r2.status = "completed" := by
    rw [hr2]
    exact chainRowApply_complete_status env.now env c
      (get_relay_hops s c.id) c rfl
  have hid2 : r2.id = c.id := by
    rw [hr2]
    exact (chainRowApply_preserves _ _ _).1
  have h3 : chainRowApply env.now
      ((A2.map (fun c => (process_chain env s c env.tip).writes)).flatten)
      r2 = r2 := by
    apply chainRowApply_frame
    intro w hw hct
    rw [List.mem_flatten] at hw
    obtain ⟨l, hl, hwl⟩ := hw
    rw [List.mem_map] at hl
    obtain ⟨cc, hcc, rfl⟩ := hl
    rw [hid2] at hct
    have hcid := (process_chain_write_targets env s cc env.tip w hwl).1
      c.id hct
    exact hA2 cc hcc (by rw [← hcid])
  rw [h3]
  rw [show chainRowApply env.now [StoreWrite.updateBlockHeight net env.tip]
    r2 = r2 from rfl]
  exact h2

theorem get_relay_hops_after (net : String) (env : Env) (s : Store)
    (hwf : WF s) (cid : Nat)
    (hno : ∀ c ∈ cycleActive net s, c.id = cid →
      (process_chain env s c env.tip).writes = []) :
    get_relay_hops (applyWrites env.now s (process_cycle net env s).writes)
      cid = get_relay_hops s cid := by
  unfold get_relay_hops
  rw [applyWrites_hops, filter_map_comm]
  have hfil : (s.hops.filter (fun x => (hopRowApply env.now
      (process_cycle net env s).writes x).chain_id == cid)) =
      s.hops.filter (fun h => h.chain_id == cid) := by
    apply List.filter_congr
    intro x _
    rw [(hopRowApply_preserves env.now _ x).2.1]
  rw [hfil]
  rw [map_eq_self_of_mem _ _ (by
    intro hr hmemf
    obtain ⟨hmem, hcid⟩ := List.mem_filter.mp hmemf
    apply cycle_hop_frame net env s hwf hr hmem
    intro c hcA hc
    exact hno c hcA (hc.trans (by simpa using hcid)))]

theorem process_chain_store_congr (env : Env) (s s2 : Store) (c : ChainRow)
    (blk : Nat) (h : get_relay_hops s2 c.id = get_relay_hops s c.id) :
    process_chain env s2 c blk = process_chain env s c blk := by
  unfold process_chain
  rw [h]

/-- C3 counterexample: with 1000 confirmed sats at the sample intake, the
first cycle sweeps and broadcasts; running a second cycle against the
updated store with the chain client returning the very same tip and
balances, the engine re-broadcasts the same sweep — the second cycle's
broadcast list is not empty, contradicting the claim. -/
theorem c3_reconciliation_idempotence_counterexample :
    (process_cycle "testnet" sampleEnv sampleStore).broadcasts ≠ [] ∧
    (process_cycle "testnet" sampleEnv
      (applyWrites sampleEnv.now sampleStore
        (process_cycle "testnet" sampleEnv sampleStore).writes)).broadcasts ≠
      [] := by
  refine ⟨?_, ?_⟩ <;> decide

/-- C3 (amended): reconciliation idempotence for broadcast-free cycles.
If one engine cycle runs and broadcasts nothing, then a second cycle run
against the updated store with the chain client returning the same tip and
the same per-address balances broadcasts no transactions and performs no
Store writes other than the tip marker update.  (When the first cycle did
broadcast a sweep, the code re-broadcasts it on the unchanged balances —
see the counterexample.) -/
theorem c3_reconciliation_idempotence (net : String) (env : Env) (s : Store)
    (hwf : WF s)
    (hnb : (process_cycle net env s).broadcasts = []) :
    (process_cycle net env (applyWrites env.now s
      (process_cycle net env s).writes)).broadcasts = [] ∧
    (process_cycle net env (applyWrites env.now s
      (process_cycle net env s).writes)).writes =
      [StoreWrite.updateBlockHeight net env.tip] := by
  set s2 := applyWrites env.now s (process_cycle net env s).writes with hs2
  have hA : ∀ c ∈ cycleActive net s,
      (process_chain env s c env.tip).broadcasts = [] := by
    intro c hc
    by_cases hemp : (cycleActive net s).isEmpty = true
    · rw [List.isEmpty_iff.mp hemp] at hc
      exact absurd hc (List.not_mem_nil c)
    · have hemp' : (cycleActive net s).isEmpty = false := by simpa using hemp
      have hb := (process_cycle_eq net env s hemp').2
      rw [hnb] at hb
      exact List.flatten_eq_nil_iff.mp hb.symm _ (List.mem_map_of_mem _ hc)
  have hsurv : ∀ c2 ∈ cycleActive net s2,
      c2 ∈ cycleActive net s ∧
      (process_chain env s c2 env.tip).writes = [] := by
    intro c2 hc2
    obtain ⟨hc2s, hc2net, hc2st⟩ := mem_cycleActive_chains net s2 c2 hc2
    rw [hs2, applyWrites_chains] at hc2s
    rw [List.mem_map] at hc2s
    obtain ⟨r, hrs, hFr⟩ := hc2s
    by_cases hcomp : ∀ c ∈ cycleActive net s, c.id = r.id →
        (process_chain env s c env.tip).writes = []
    · have hFr2 : chainRowApply env.now (process_cycle net env s).writes r =
          r := cycle_chain_frame net env s r hcomp
      rw [hFr2] at hFr
      subst hFr
      have hcA : r ∈ cycleActive net s :=
        cycleActive_of_mem net s r hrs hc2net hc2st
      exact ⟨hcA, hcomp r hcA rfl⟩
    · exfalso
      push_neg at hcomp
      obtain ⟨c, hcA, hcid, hcw⟩ := hcomp
      obtain ⟨hcs, hcnet2, hcst2⟩ := mem_cycleActive_chains net s c hcA
      have hceq : c = r := List.inj_on_of_nodup_map hwf.1 hcs hrs hcid
      subst hceq
      rcases process_chain_no_broadcast_writes env s c env.tip (hA c hcA) with
        h0 | hcomp2
      · exact hcw h0
      · have hst := cycle_completer_status net env s hwf c hcA hcomp2.1
        rw [hFr] at hst
        rw [hc2st] at hst
        simp at hst
  have hsame : ∀ c2 ∈ cycleActive net s2,
      process_chain env s2 c2 env.tip = process_chain env s c2 env.tip := by
    intro c2 hc2
    obtain ⟨hcA, hw0⟩ := hsurv c2 hc2
    apply process_chain_store_congr
    rw [hs2]
    apply get_relay_hops_after net env s hwf c2.id
    intro c hcA2 hcid
    obtain ⟨hcs, _, _⟩ := mem_cycleActive_chains net s c hcA2
    obtain ⟨hc2s2, _, _⟩ := mem_cycleActive_chains net s c2 hcA
    have hcc : c = c2 := List.inj_on_of_nodup_map hwf.1 hcs hc2s2 hcid
    rw [hcc]
    exact hw0
  by_cases hemp2 : (cycleActive net s2).isEmpty = true
  · rw [process_cycle_empty net env s2 hemp2]
    exact ⟨rfl, rfl⟩
  · have hemp2b : (cycleActive net s2).isEmpty = false := by simpa using hemp2
    obtain ⟨hW2, hB2⟩ := process_cycle_eq net env s2 hemp2b
    constructor
    · rw [hB2]
      rw [List.flatten_eq_nil_iff]
      intro l hl
      rw [List.mem_map] at hl
      obtain ⟨c2, hc2, rfl⟩ := hl
      rw [hsame c2 hc2]
      exact hA c2 (hsurv c2 hc2).1
    · rw [hW2]
      have hnilw : ((cycleActive net s2).map
          (fun c => (process_chain env s2 c env.tip).writes)).flatten = [] := by
        rw [List.flatten_eq_nil_iff]
        intro l hl
        rw [List.mem_map] at hl
        obtain ⟨c2, hc2, rfl⟩ := hl
        rw [hsame c2 hc2]
        exact (hsurv c2 hc2).2
      rw [hnilw]
      rfl

/-- Witness for the amended C3: a waiting chain (no balances anywhere):
the first cycle broadcasts nothing, and the second cycle broadcasts
nothing and writes only the tip marker. -/
theorem c3_reconciliation_idempotence_witness :
    (process_cycle "testnet" lowEnv
      ⟨[{ (default : ChainRow) with
          id := 2
          network := "testnet"
          status := "active"
          intake_address := "a2"
          intake_privkey_encrypted := "k2"
          final_address := "f2"
          total_hops := 1 }],
        [{ (default : HopRow) with
          id := 20
          chain_id := 2
          hop_number := 0
          address := "h2"
          privkey_encrypted := "kh2" }], [], []⟩).broadcasts = [] ∧
    (process_cycle "testnet" lowEnv
      (applyWrites lowEnv.now
        ⟨[{ (default : ChainRow) with
            id := 2
            network := "testnet"
            status := "active"
            intake_address := "a2"
            intake_privkey_encrypted := "k2"
            final_address := "f2"
            total_hops := 1 }],
          [{ (default : HopRow) with
            id := 20
            chain_id := 2
            hop_number := 0
            address := "h2"
            privkey_encrypted := "kh2" }], [], []⟩
        (process_cycle "testnet" lowEnv
          ⟨[{ (default : ChainRow) with
              id := 2
              network := "testnet"
              status := "active"
              intake_address := "a2"
              intake_privkey_encrypted := "k2"
              final_address := "f2"
              total_hops := 1 }],
            [{ (default : HopRow) with
              id := 20
              chain_id := 2
              hop_number := 0
              address := "h2"
              privkey_encrypted := "kh2" }], [], []⟩).writes)).writes =
      [StoreWrite.updateBlockHeight "testnet" lowEnv.tip] :=
  ⟨by decide,
   (c3_reconciliation_idempotence "testnet" lowEnv
     ⟨[{ (default : ChainRow) with
         id := 2
         network := "testnet"
         status := "active"
         intake_address := "a2"
         intake_privkey_encrypted := "k2"
         final_address := "f2"
         total_hops := 1 }],
       [{ (default : HopRow) with
         id := 20
         chain_id := 2
         hop_number := 0
         address := "h2"
         privkey_encrypted := "kh2" }], [], []⟩
     ⟨by decide, by decide⟩ (by decide)).2⟩

end BitcoinRelay
